import Mathlib

/-!
Verification development for the tornado-couchdb client library.

The repository ships two generations of the client:
  * the packaged module `couch/couch.py` (installed by `setup.py`), and
  * the legacy root module `couch.py`, an earlier revision of the same code.
Both are embedded below; definitions carrying the suffix `_legacy` are the
translations of the root module, all other definitions translate the
packaged module.  Python values, the semantics of the Python operations the
code uses (`in`, subscription, iteration, truthiness) and the behaviour of
the external collaborators the code calls (`json.dumps`, `str.replace`,
`tornado.escape.url_escape`, `tornado.httpclient.HTTPError.__init__`,
`http.client.responses`) are modelled explicitly so that the embedded
functions follow the Python sources statement by statement.
-/

namespace Couch

/-- Model of a Python float: a finite value (kept abstractly as a decimal
significand/exponent pair, since no claim depends on float arithmetic or on
the exact textual rendering of finite floats) or one of the three
non-finite values. -/
inductive FloatV where
  | finite (m : Int) (e : Int)
  | nan
  | inf
  | ninf
deriving DecidableEq

/-- Model of the JSON-compatible Python values the library passes to and
receives from the JSON codec: None, bool, int, float, str, list and dict
(with string keys, in insertion order). -/
inductive PyVal where
  | none_
  | bool (b : Bool)
  | int (n : Int)
  | float (f : FloatV)
  | str (s : String)
  | list (xs : List PyVal)
  | dict (kvs : List (String × PyVal))

/-- Python exceptions other than the library's own CouchException family. -/
inductive PyErr where
  | typeError (msg : String)
  | keyError (k : String)
  | valueError (msg : String)
  | attributeError (msg : String)
deriving DecidableEq

deriving instance DecidableEq for Except

/-- First-match lookup in an association list, i.e. Python dict indexing for
dicts represented in insertion order with unique keys. -/
def lookupKey (kvs : List (String × PyVal)) (k : String) : Option PyVal :=
  match kvs with
  | [] => none
  | (k0, v) :: rest => if k0 = k then some v else lookupKey rest k

/-- Python `k in d` for a dict. -/
def hasKey (kvs : List (String × PyVal)) (k : String) : Bool :=
  (lookupKey kvs k).isSome

/-- Python truthiness of a value (`bool(v)`). -/
def pyTruthy : PyVal → Bool
  | .none_ => false
  | .bool b => b
  | .int n => decide (n ≠ 0)
  | .float (.finite m _) => decide (m ≠ 0)
  | .float _ => true
  | .str s => decide (s ≠ "")
  | .list xs => !xs.isEmpty
  | .dict kvs => !kvs.isEmpty

/-- Whether the character list `pat` occurs as a prefix of `l`. -/
def isPrefixL (pat l : List Char) : Bool :=
  match pat, l with
  | [], _ => true
  | _ :: _, [] => false
  | p :: ps, c :: cs => p = c && isPrefixL ps cs

/-- Whether the character list `pat` occurs as a contiguous sublist of `l`,
i.e. Python `pat in s` for strings. -/
def isInfixL (pat l : List Char) : Bool :=
  match l with
  | [] => isPrefixL pat []
  | _ :: cs => isPrefixL pat l || isInfixL pat cs

/-- Python `needle in v` where `needle` is a string: key test for dicts,
substring test for strings, membership test for lists and TypeError for
non-container values. -/
def pyContains (needle : String) : PyVal → Except PyErr Bool
  | .dict kvs => .ok (hasKey kvs needle)
  | .str s => .ok (isInfixL needle.data s.data)
  | .list xs => .ok (xs.any (fun v => match v with | .str s => s = needle | _ => false))
  | _ => .error (.typeError "argument is not iterable")

/-- Python `v[k]` where `k` is a string: dict lookup raising KeyError for a
missing key, TypeError for every other value. -/
def pyGetItem (v : PyVal) (k : String) : Except PyErr PyVal :=
  match v with
  | .dict kvs =>
      match lookupKey kvs k with
      | some r => .ok r
      | none => .error (.keyError k)
  | .str _ => .error (.typeError "string indices must be integers")
  | .list _ => .error (.typeError "list indices must be integers")
  | _ => .error (.typeError "object is not subscriptable")

/-- Python iteration `for x in v`: lists yield their elements, strings their
characters, dicts their keys; other values raise TypeError. -/
def pyIter : PyVal → Except PyErr (List PyVal)
  | .list xs => .ok xs
  | .str s => .ok (s.data.map (fun c => .str (String.mk [c])))
  | .dict kvs => .ok (kvs.map (fun kv => .str kv.1))
  | _ => .error (.typeError "object is not iterable")

/-! ## The JSON encoder (`json.dumps` plus the module's wrapper)

`couch/couch.py` line 25-27:

    def json_encode(value):
        return json.dumps(value, allow_nan=False).replace("</", "<\\/")

The legacy root module instead uses `tornado.escape.json_encode`, which is
`json.dumps(value).replace("</", "<\\/")` (so with `allow_nan` left at its
default `True`).  `json.dumps` is modelled with its default settings:
`ensure_ascii` escaping for strings, separators `", "` and `": "`, and a
ValueError carrying CPython's message for non-finite floats when
`allow_nan` is false.  The exact decimal rendering of finite floats is
abstracted (no claim depends on it). -/

/-- CPython's message for non-finite floats rejected by `json.dumps`. -/
def oorMsg : String := "Out of range float values are not JSON compliant"

/-- Serialization of a float by `json.dumps`, parametrized by `allow_nan`. -/
def dumpsFloat (an : Bool) : FloatV → Except PyErr String
  | .finite m e => .ok (toString m ++ "e" ++ toString e)
  | .nan => if an then .ok "NaN" else .error (.valueError oorMsg)
  | .inf => if an then .ok "Infinity" else .error (.valueError oorMsg)
  | .ninf => if an then .ok "-Infinity" else .error (.valueError oorMsg)

/-- Lower-case hexadecimal digit, as used in `\uXXXX` escapes. -/
def hexDigitLower (n : Nat) : Char :=
  if n < 10 then Char.ofNat (48 + n) else Char.ofNat (97 + n - 10)

/-- Escaping of one character inside a JSON string literal, following
`json.dumps` with `ensure_ascii=True` (note that `<`, `>` and `/` are kept
verbatim by the json module). -/
def jsonEscapeChar (c : Char) : List Char :=
  if c = '"' then ['\\', '"']
  else if c = '\\' then ['\\', '\\']
  else if c = '\n' then ['\\', 'n']
  else if c = '\r' then ['\\', 'r']
  else if c = '\t' then ['\\', 't']
  else if c.toNat = 8 then ['\\', 'b']
  else if c.toNat = 12 then ['\\', 'f']
  else if c.toNat < 32 ∨ c.toNat > 126 then
    if c.toNat < 65536 then
      ['\\', 'u', hexDigitLower (c.toNat / 4096 % 16), hexDigitLower (c.toNat / 256 % 16),
       hexDigitLower (c.toNat / 16 % 16), hexDigitLower (c.toNat % 16)]
    else
      have hi := 55296 + (c.toNat - 65536) / 1024
      have lo := 56320 + (c.toNat - 65536) % 1024
      ['\\', 'u', hexDigitLower (hi / 4096 % 16), hexDigitLower (hi / 256 % 16),
       hexDigitLower (hi / 16 % 16), hexDigitLower (hi % 16),
       '\\', 'u', hexDigitLower (lo / 4096 % 16), hexDigitLower (lo / 256 % 16),
       hexDigitLower (lo / 16 % 16), hexDigitLower (lo % 16)]
  else [c]

/-- JSON string literal for a Python string, per `json.dumps`. -/
def dumpsStr (s : String) : String :=
  String.mk ('"' :: (s.data.flatMap jsonEscapeChar) ++ ['"'])

mutual
/-- Model of `json.dumps(value, allow_nan=an)` with default separators. -/
def dumps (an : Bool) : PyVal → Except PyErr String
  | .none_ => .ok "null"
  | .bool b => .ok (if b then "true" else "false")
  | .int n => .ok (toString n)
  | .float f => dumpsFloat an f
  | .str s => .ok (dumpsStr s)
  | .list xs => do
      let parts ← dumpsElems an xs
      .ok ("[" ++ String.intercalate ", " parts ++ "]")
  | .dict kvs => do
      let parts ← dumpsPairs an kvs
      .ok ("\x7b" ++ String.intercalate ", " parts ++ "\x7d")
/-- Serialization of the elements of a list by `json.dumps`. -/
def dumpsElems (an : Bool) : List PyVal → Except PyErr (List String)
  | [] => .ok []
  | v :: vs => do
      let s ← dumps an v
      let rest ← dumpsElems an vs
      .ok (s :: rest)
/-- Serialization of the key/value pairs of a dict by `json.dumps`. -/
def dumpsPairs (an : Bool) : List (String × PyVal) → Except PyErr (List String)
  | [] => .ok []
  | (k, v) :: vs => do
      let s ← dumps an v
      let rest ← dumpsPairs an vs
      .ok ((dumpsStr k ++ ": " ++ s) :: rest)
end

/-- Python `s.replace("</", "<\\/")` on the character list of `s`:
left-to-right replacement of non-overlapping occurrences. -/
def replaceLtSlash : List Char → List Char
  | [] => []
  | [c] => [c]
  | a :: b :: rest =>
      if a = '<' ∧ b = '/' then '<' :: '\\' :: '/' :: replaceLtSlash rest
      else a :: replaceLtSlash (b :: rest)

/-- Whether the two-character sequence `</` occurs in a character list
(Python `"</" in s`). -/
def hasLtSlash : List Char → Bool
  | [] => false
  | [_] => false
  | a :: b :: rest => (a = '<' && b = '/') || hasLtSlash (b :: rest)

/-- Translation of `json_encode` from `couch/couch.py`:
`json.dumps(value, allow_nan=False).replace("</", "<\\/")`. -/
def json_encode (value : PyVal) : Except PyErr String :=
  (dumps false value).map (fun s => String.mk (replaceLtSlash s.data))

/-- Translation of `tornado.escape.json_encode`, used by the legacy root
module: `json.dumps(value).replace("</", "<\\/")`. -/
def tornado_json_encode (value : PyVal) : Except PyErr String :=
  (dumps true value).map (fun s => String.mk (replaceLtSlash s.data))

/-- A Python value contains a non-finite float (NaN or an infinity),
possibly nested inside lists and dicts. -/
inductive HasNonFinite : PyVal → Prop
  | nan : HasNonFinite (.float .nan)
  | inf : HasNonFinite (.float .inf)
  | ninf : HasNonFinite (.float .ninf)
  | inList {v : PyVal} {xs : List PyVal} :
      v ∈ xs → HasNonFinite v → HasNonFinite (.list xs)
  | inDict {k : String} {v : PyVal} {kvs : List (String × PyVal)} :
      (k, v) ∈ kvs → HasNonFinite v → HasNonFinite (.dict kvs)

/-! ## URL escaping

`tornado.escape.url_escape(value)` is `urllib.parse.quote_plus(utf8(value))`:
UTF-8 encode, keep ASCII letters, digits and `_.-~` verbatim, turn a space
into `+`, and percent-encode every other byte with upper-case hex. -/

/-- Upper-case hexadecimal digit, as used in percent escapes. -/
def hexDigitUpper (n : Nat) : Char :=
  if n < 10 then Char.ofNat (48 + n) else Char.ofNat (65 + n - 10)

/-- UTF-8 encoding of a Unicode code point. -/
def utf8Bytes (n : Nat) : List Nat :=
  if n < 128 then [n]
  else if n < 2048 then [192 + n / 64, 128 + n % 64]
  else if n < 65536 then [224 + n / 4096, 128 + n / 64 % 64, 128 + n % 64]
  else [240 + n / 262144, 128 + n / 4096 % 64, 128 + n / 64 % 64, 128 + n % 64]

/-- Bytes kept verbatim by `quote_plus`: ASCII alphanumerics and `_.-~`. -/
def urlSafeChar (c : Char) : Bool :=
  (c ≥ 'a' && c ≤ 'z') || (c ≥ 'A' && c ≤ 'Z') || (c ≥ '0' && c ≤ '9') ||
  c = '_' || c = '.' || c = '-' || c = '~'

/-- Percent-encoding of one character (after UTF-8 encoding). -/
def urlEscapeChar (c : Char) : List Char :=
  if urlSafeChar c then [c]
  else if c = ' ' then ['+']
  else (utf8Bytes c.toNat).flatMap
    (fun b => ['%', hexDigitUpper (b / 16 % 16), hexDigitUpper (b % 16)])

/-- Translation of `tornado.escape.url_escape` on a Python `str`. -/
def url_escape (s : String) : String :=
  String.mk (s.data.flatMap urlEscapeChar)

/-- Applying `url_escape` to an arbitrary Python value: tornado's `utf8`
conversion raises TypeError for anything that is not a string. -/
def url_escape_py : PyVal → Except PyErr String
  | .str s => .ok (url_escape s)
  | _ => .error (.typeError "Expected bytes, unicode, or None")

/-! ## HTTP responses, `HTTPError` and the exception taxonomy

An HTTP response is modelled by its status code and its body.  The library
always feeds the body to `json_decode` before inspecting it; since the JSON
codec is an external collaborator assumed correct, the body is carried
directly as the decoded Python value. -/

/-- An HTTP response: status code and JSON-decoded body. -/
structure RespV where
  code : Nat
  bodyJson : PyVal

/-- Model of `http.client.responses.get(code, "Unknown")`, the standard
status phrase table consulted by tornado's `HTTPError` constructor. -/
def stdReason (code : Nat) : String :=
  if code = 100 then "Continue" else if code = 101 then "Switching Protocols"
  else if code = 200 then "OK" else if code = 201 then "Created"
  else if code = 202 then "Accepted" else if code = 204 then "No Content"
  else if code = 301 then "Moved Permanently" else if code = 302 then "Found"
  else if code = 304 then "Not Modified" else if code = 400 then "Bad Request"
  else if code = 401 then "Unauthorized" else if code = 403 then "Forbidden"
  else if code = 404 then "Not Found" else if code = 405 then "Method Not Allowed"
  else if code = 406 then "Not Acceptable" else if code = 409 then "Conflict"
  else if code = 410 then "Gone" else if code = 412 then "Precondition Failed"
  else if code = 500 then "Internal Server Error" else if code = 501 then "Not Implemented"
  else if code = 502 then "Bad Gateway" else if code = 503 then "Service Unavailable"
  else "Unknown"

/-- Tornado's `HTTPError.__init__` stores
`message or httputil.responses.get(code, "Unknown")`: a falsy message
argument (in particular `None`) is replaced by the standard phrase. -/
def msgOrDefault (m : Option PyVal) (code : Nat) : PyVal :=
  match m with
  | some v => if pyTruthy v then v else .str (stdReason code)
  | none => .str (stdReason code)

/-- A `tornado.httpclient.HTTPError` instance: code, stored message and the
attached response. -/
structure HTTPErrorV where
  code : Nat
  message : PyVal
  response : RespV

/-- Construction `httpclient.HTTPError(code, message, response)`. -/
def mkHTTPError (code : Nat) (m : Option PyVal) (resp : RespV) : HTTPErrorV :=
  { code := code, message := msgOrDefault m code, response := resp }

/-- The closed taxonomy of Couch exception kinds defined at the bottom of
`couch/couch.py`: the seven specific subclasses plus the generic base
`CouchException`. -/
inductive ExcKind where
  | notModified
  | badRequest
  | notFound
  | methodNotAllowed
  | conflict
  | preconditionFailed
  | internalServerError
  | generic
deriving DecidableEq

/-- A constructed CouchException: its kind together with the `HTTPError`
state it stores (code, message, response). -/
structure CouchExc where
  kind : ExcKind
  code : Nat
  message : PyVal
  response : RespV

/-- Fixed description carried by `NotModified`. -/
def notModifiedDesc : String :=
  "The document has not been modified since the last update."

/-- Fixed description carried by `BadRequest`. -/
def badRequestDesc : String :=
  "The syntax of the request was invalid or could not be processed."

/-- Fixed description carried by `NotFound`. -/
def notFoundDesc : String := "The requested resource was not found."

/-- Fixed description carried by `MethodNotAllowed`. -/
def methodNotAllowedDesc : String :=
  "The request was made using an incorrect request method; for example, a GET was used where a POST was required."

/-- Fixed description carried by `Conflict`. -/
def conflictDesc : String := "The request failed because of a database conflict."

/-- Fixed description carried by `PreconditionFailed`. -/
def preconditionFailedDesc : String :=
  "Could not create database - a database with that name already exists."

/-- Fixed description carried by `InternalServerError`. -/
def internalServerErrorDesc : String :=
  "The request was invalid and failed, or an error occurred within the CouchDB server that prevented it from processing the request."

/-- Construction `CouchException.__init__(self, HTTPError, msg)` in `couch/couch.py`:
it
forwards `(HTTPError.code, msg, HTTPError.response)` to tornado's
`HTTPError.__init__`, so the stored message is `msg` when truthy and the
standard phrase otherwise. -/
def couchExcInit (k : ExcKind) (e : HTTPErrorV) (msg : Option String) : CouchExc :=
  { kind := k, code := e.code,
    message := msgOrDefault (msg.map PyVal.str) e.code,
    response := e.response }

/-- Translation of `relax_exception` from `couch/couch.py`: dispatch on the
status code of the given `HTTPError`.  The legacy root module repeats the
same dispatch chain but builds its exceptions through a different
`CouchException.__init__`, modelled separately below. -/
def relax_exception (e : HTTPErrorV) : CouchExc :=
  if e.code = 304 then couchExcInit .notModified e (some notModifiedDesc)
  else if e.code = 400 then couchExcInit .badRequest e (some badRequestDesc)
  else if e.code = 404 then couchExcInit .notFound e (some notFoundDesc)
  else if e.code = 405 then couchExcInit .methodNotAllowed e (some methodNotAllowedDesc)
  else if e.code = 409 then couchExcInit .conflict e (some conflictDesc)
  else if e.code = 412 then couchExcInit .preconditionFailed e (some preconditionFailedDesc)
  else if e.code = 500 then couchExcInit .internalServerError e (some internalServerErrorDesc)
  else couchExcInit .generic e none

/-- The exception kind determined by a status code alone (specification-side
restatement of the dispatch chain, used to express order-independence and
totality of the classifier). -/
def codeKind (code : Nat) : ExcKind :=
  if code = 304 then .notModified
  else if code = 400 then .badRequest
  else if code = 404 then .notFound
  else if code = 405 then .methodNotAllowed
  else if code = 409 then .conflict
  else if code = 412 then .preconditionFailed
  else if code = 500 then .internalServerError
  else .generic

/-- Everything a library call can raise: a classified CouchException or a
plain Python exception. -/
inductive RaisedErr where
  | couch (e : CouchExc)
  | py (e : PyErr)

/-! ## The response interpreters (`_parse_response`)

`couch/couch.py` lines 408-434 (packaged module) and `couch.py` lines
290-315 (legacy root module).  Both decode the body and scan it in three
tiers: a list of objects, an object with an `error` key, an object with a
`rows` key; the first error found is classified and raised.  They differ in
how a status code is derived for list elements and rows — the packaged
module infers it from the error string via `to_code`, the legacy module
keeps the response's own status unless the error string is `not_found` —
and in how the exception itself is built: the legacy
`CouchException.__init__` re-decodes the response body and, when no truthy
message is passed, reads `body.get('reason')` from it. -/

/-- Translation of the local helper `to_code` inside the packaged module's
`_parse_response`: `{'not_found': 404, 'conflict': 409}.get(err, 400)`.
A non-hashable argument (list or dict) raises TypeError; every other
non-matching value falls back to 400. -/
def to_code (v : PyVal) : Except PyErr Nat :=
  match v with
  | .str s => .ok (if s = "not_found" then 404 else if s = "conflict" then 409 else 400)
  | .list _ => .error (.typeError "unhashable type")
  | .dict _ => .error (.typeError "unhashable type")
  | _ => .ok 400

/-- Tier-1 scan of the packaged `_parse_response`: first element with an
`error` key raises `relax_exception(HTTPError(to_code(item['error']),
item['reason'], resp))`. -/
def scanItems (resp : RespV) : List PyVal → Except RaisedErr Unit
  | [] => .ok ()
  | item :: rest => do
      let b ← (pyContains "error" item).mapError RaisedErr.py
      if b then do
        let ev ← (pyGetItem item "error").mapError RaisedErr.py
        let code ← (to_code ev).mapError RaisedErr.py
        let rv ← (pyGetItem item "reason").mapError RaisedErr.py
        .error (.couch (relax_exception (mkHTTPError code (some rv) resp)))
      else scanItems resp rest

/-- Tier-3 scan of the packaged `_parse_response`: first row with an
`error` key raises `relax_exception(HTTPError(to_code(row['error']),
row['error'], resp))`. -/
def scanRows (resp : RespV) : List PyVal → Except RaisedErr Unit
  | [] => .ok ()
  | row :: rest => do
      let b ← (pyContains "error" row).mapError RaisedErr.py
      if b then do
        let ev ← (pyGetItem row "error").mapError RaisedErr.py
        let code ← (to_code ev).mapError RaisedErr.py
        .error (.couch (relax_exception (mkHTTPError code (some ev) resp)))
      else scanRows resp rest

/-- Translation of `AsyncCouch._parse_response` from `couch/couch.py`. -/
def parse_response (resp : RespV) : Except RaisedErr PyVal := do
  let obj := resp.bodyJson
  match obj with
  | .list items => do
      scanItems resp items
      .ok obj
  | _ => do
      let b ← (pyContains "error" obj).mapError RaisedErr.py
      if b then do
        let rv ← (pyGetItem obj "reason").mapError RaisedErr.py
        .error (.couch (relax_exception (mkHTTPError resp.code (some rv) resp)))
      else do
        let b2 ← (pyContains "rows" obj).mapError RaisedErr.py
        if b2 then do
          let rowsV ← (pyGetItem obj "rows").mapError RaisedErr.py
          let rows ← (pyIter rowsV).mapError RaisedErr.py
          scanRows resp rows
          .ok obj
        else .ok obj

/-- Status code used by the legacy `_parse_response` for list elements and
rows: `resp.code if err != 'not_found' else 404`. -/
def legacyCode (respCode : Nat) (ev : PyVal) : Nat :=
  match ev with
  | .str s => if s = "not_found" then 404 else respCode
  | _ => respCode

/-- Python `v.get(key)` on a value expected to be a dict: returns the key's
value or `None`; any non-dict value lacks the `get` attribute. -/
def pyDictGet (v : PyVal) (key : String) : Except PyErr (Option PyVal) :=
  match v with
  | .dict kvs => .ok (lookupKey kvs key)
  | _ => .error (.attributeError "object has no attribute get")

/-- Construction `CouchException.__init__(self, HTTPError, msg)` in the
legacy root module `couch.py` (lines 763-768): it first re-decodes the
attached response body (`body = json_decode(HTTPError.response.body)`, which
succeeds since `_parse_response` already decoded the same body), then
computes `message = msg or body.get('reason')` — so with a falsy `msg` it
calls `.get` on the decoded body, an AttributeError whenever that body is
not a dict — and forwards `(HTTPError.code, message, HTTPError.response)` to
tornado's `HTTPError.__init__`. -/
def couchExcInitLegacy (k : ExcKind) (e : HTTPErrorV) (msg : Option PyVal) :
    Except PyErr CouchExc := do
  let body := e.response.bodyJson
  let message ← match msg with
    | some m =>
        if pyTruthy m then pure (some m) else pyDictGet body "reason"
    | none => pyDictGet body "reason"
  pure { kind := k, code := e.code,
         message := msgOrDefault message e.code,
         response := e.response }

/-- Translation of `relax_exception` from the legacy root module `couch.py`:
the same status-code dispatch as the packaged module, but every branch
constructs its exception through the legacy `CouchException.__init__`
(the specific kinds pass their truthy fixed description, the generic branch
passes no message and therefore reads `body.get('reason')`). -/
def relax_exception_legacy (e : HTTPErrorV) : Except PyErr CouchExc :=
  if e.code = 304 then couchExcInitLegacy .notModified e (some (.str notModifiedDesc))
  else if e.code = 400 then couchExcInitLegacy .badRequest e (some (.str badRequestDesc))
  else if e.code = 404 then couchExcInitLegacy .notFound e (some (.str notFoundDesc))
  else if e.code = 405 then couchExcInitLegacy .methodNotAllowed e (some (.str methodNotAllowedDesc))
  else if e.code = 409 then couchExcInitLegacy .conflict e (some (.str conflictDesc))
  else if e.code = 412 then couchExcInitLegacy .preconditionFailed e (some (.str preconditionFailedDesc))
  else if e.code = 500 then couchExcInitLegacy .internalServerError e (some (.str internalServerErrorDesc))
  else couchExcInitLegacy .generic e none

/-- Tier-1 scan of the legacy `_parse_response` (message `item['reason']`). -/
def scanItemsLegacy (resp : RespV) : List PyVal → Except RaisedErr Unit
  | [] => .ok ()
  | item :: rest => do
      let b ← (pyContains "error" item).mapError RaisedErr.py
      if b then do
        let ev ← (pyGetItem item "error").mapError RaisedErr.py
        let rv ← (pyGetItem item "reason").mapError RaisedErr.py
        let ce ← (relax_exception_legacy
          (mkHTTPError (legacyCode resp.code ev) (some rv) resp)).mapError RaisedErr.py
        .error (.couch ce)
      else scanItemsLegacy resp rest

/-- Tier-3 scan of the legacy `_parse_response` (message `row['error']`). -/
def scanRowsLegacy (resp : RespV) : List PyVal → Except RaisedErr Unit
  | [] => .ok ()
  | row :: rest => do
      let b ← (pyContains "error" row).mapError RaisedErr.py
      if b then do
        let ev ← (pyGetItem row "error").mapError RaisedErr.py
        let ce ← (relax_exception_legacy
          (mkHTTPError (legacyCode resp.code ev) (some ev) resp)).mapError RaisedErr.py
        .error (.couch ce)
      else scanRowsLegacy resp rest

/-- Translation of `BlockingCouch._parse_response` from the legacy root
module `couch.py` (its AsyncCouch variant performs the same computation,
delivering the result through a callback instead of raising). -/
def parse_response_legacy (resp : RespV) : Except RaisedErr PyVal := do
  let obj := resp.bodyJson
  match obj with
  | .list items => do
      scanItemsLegacy resp items
      .ok obj
  | _ => do
      let b ← (pyContains "error" obj).mapError RaisedErr.py
      if b then do
        let rv ← (pyGetItem obj "reason").mapError RaisedErr.py
        let ce ← (relax_exception_legacy
          (mkHTTPError resp.code (some rv) resp)).mapError RaisedErr.py
        .error (.couch ce)
      else do
        let b2 ← (pyContains "rows" obj).mapError RaisedErr.py
        if b2 then do
          let rowsV ← (pyGetItem obj "rows").mapError RaisedErr.py
          let rows ← (pyIter rowsV).mapError RaisedErr.py
          scanRowsLegacy resp rows
          .ok obj
        else .ok obj

/-- The kind of the CouchException raised by a computation, if any (used to
state counterexamples through a decidable projection). -/
def raisedKind {α : Type} : Except RaisedErr α → Option ExcKind
  | .error (.couch e) => some e.kind
  | _ => none

/-- The status code of the CouchException raised by a computation, if any. -/
def raisedCode {α : Type} : Except RaisedErr α → Option Nat
  | .error (.couch e) => some e.code
  | _ => none

/-! ## Request building

A request is modelled structurally: method, path, query options (the list
of `key=value` pairs joined by `&` behind a `?` in the source's
`'{0}?{1}'.format(url, '&'.join(options))`), body, and the headers the
operation itself supplies.  The merging of these headers with the client's
configured `request_args` is modelled separately in the heap section
below. -/

/-- HTTP method of a request. -/
inductive Method where
  | GET
  | POST
  | PUT
  | DELETE
  | HEAD
deriving DecidableEq

/-- A request descriptor handed to the transport. -/
structure HTTPReq where
  method : Method
  path : String
  query : List (String × String)
  body : Option String
  headers : List (String × Option String)
deriving DecidableEq

/-- The URL string of a request, as assembled by the source from the path
and the joined query options. -/
def urlOf (r : HTTPReq) : String :=
  r.path ++
    (if r.query.isEmpty then ""
     else "?" ++ String.intercalate "&" (r.query.map (fun kv => kv.1 ++ "=" ++ kv.2)))

/-- The configured state of an `AsyncCouch` client that request building
reads: database name, base url and the `_closed` flag. -/
structure Client where
  db_name : String
  couch_url : String
  closed : Bool
deriving DecidableEq

/-- The exception actually raised by
`raise CouchException('Database connection is closed.')` in
`AsyncCouch._test_closed` and `AsyncCouch._http_head`:
`CouchException.__init__(self, HTTPError, msg=None)` immediately evaluates
`HTTPError.code`, and its argument here is the plain string
`'Database connection is closed.'`, which has no `code` attribute — so the
construction itself raises AttributeError and no CouchException carrying
the closed message is ever produced. -/
def closedAttrError : PyErr :=
  .attributeError "str object has no attribute code"

/-- Translation of `AsyncCouch._test_closed`. -/
def test_closed (c : Client) : Except RaisedErr Unit :=
  if c.closed then .error (.py closedAttrError) else .ok ()

/-- Translation of `AsyncCouch._http_get` up to the transport boundary,
for a client whose `request_args` carries no preset headers (the
`request_args` merge itself is modelled in the heap section): closed test,
then the request with the caller's headers and the defaulted Accept. -/
def http_get (c : Client) (path : String) (query : List (String × String))
    (headers : List (String × Option String)) : Except RaisedErr HTTPReq := do
  test_closed c
  .ok { method := .GET, path := path, query := query, body := none,
        headers :=
          if headers.any (fun kv => kv.1 = "Accept") then headers
          else headers ++ [("Accept", some "application/json")] }

/-- Translation of `AsyncCouch._http_post` up to the transport boundary. -/
def http_post (c : Client) (path : String) (query : List (String × String))
    (body : String) : Except RaisedErr HTTPReq := do
  test_closed c
  .ok { method := .POST, path := path, query := query, body := some body,
        headers := [("Accept", some "application/json"),
                    ("Content-Type", some "application/json")] }

/-- Translation of `AsyncCouch._http_put` up to the transport boundary. -/
def http_put (c : Client) (path : String) (query : List (String × String))
    (body : String) (headers : List (String × Option String)) :
    Except RaisedErr HTTPReq := do
  test_closed c
  .ok { method := .PUT, path := path, query := query, body := some body,
        headers :=
          (if body ≠ "" ∧ ¬ headers.any (fun kv => kv.1 = "Content-Type") then
            headers ++ [("Content-Type", some "application/json")]
           else headers) ++
          (if headers.any (fun kv => kv.1 = "Accept") then []
           else [("Accept", some "application/json")]) }

/-- Translation of `AsyncCouch._http_delete` up to the transport boundary. -/
def http_delete (c : Client) (path : String) (query : List (String × String)) :
    Except RaisedErr HTTPReq := do
  test_closed c
  .ok { method := .DELETE, path := path, query := query, body := none,
        headers := [("Accept", some "application/json")] }

/-- Translation of `AsyncCouch._http_head` up to the transport boundary
(it repeats the closed test inline). -/
def http_head (c : Client) (path : String) : Except RaisedErr HTTPReq := do
  if c.closed then .error (.py closedAttrError) else .ok ()
  .ok { method := .HEAD, path := path, query := [], body := none, headers := [] }

/-- Translation of `AsyncCouch.list_dbs`: a GET of `_all_dbs`. -/
def list_dbs (c : Client) : Except RaisedErr HTTPReq :=
  http_get c "_all_dbs" [] []

/-- Translation of `AsyncCouch.get_doc` up to the transport boundary. -/
def get_doc (c : Client) (doc_id : String) : Except RaisedErr HTTPReq :=
  http_get c (c.db_name ++ "/" ++ url_escape doc_id) [] []

/-- Translation of `AsyncCouch.save_doc` from `couch/couch.py` up to the
transport boundary: encode the document, then PUT at
`{db}/{url-escaped id}` when the document has an `_id` key and POST to
`{db}` otherwise. -/
def save_doc (c : Client) (doc : List (String × PyVal)) : Except RaisedErr HTTPReq := do
  let body ← (json_encode (.dict doc)).mapError RaisedErr.py
  if hasKey doc "_id" then do
    let idv ← (pyGetItem (.dict doc) "_id").mapError RaisedErr.py
    let esc ← (url_escape_py idv).mapError RaisedErr.py
    http_put c (c.db_name ++ "/" ++ esc) [] body []
  else
    http_post c c.db_name [] body

/-- Translation of `BlockingCouch.save_doc` from the legacy root module
`couch.py`: encode with tornado's `json_encode`, then PUT at
`/{db}/{url-escaped id}` when the document has both `_id` and `_rev`, and
POST to `/{db}` otherwise.  (Its AsyncCouch variant builds the identical
request.) -/
def save_doc_legacy (c : Client) (doc : List (String × PyVal)) :
    Except RaisedErr HTTPReq := do
  let body ← (tornado_json_encode (.dict doc)).mapError RaisedErr.py
  if hasKey doc "_id" ∧ hasKey doc "_rev" then do
    let idv ← (pyGetItem (.dict doc) "_id").mapError RaisedErr.py
    let esc ← (url_escape_py idv).mapError RaisedErr.py
    .ok { method := .PUT, path := "/" ++ c.db_name ++ "/" ++ esc, query := [],
          body := some body,
          headers := [("Accept", some "application/json"),
                      ("Content-Type", some "application/json")] }
  else
    .ok { method := .POST, path := "/" ++ c.db_name, query := [],
          body := some body,
          headers := [("Accept", some "application/json"),
                      ("Content-Type", some "application/json")] }

/-- Response-side of `AsyncCouch.get_docs`: `_parse_response` applied to
the reply of the `_all_docs` POST, then the comprehension
`[row['doc'] for row in r['rows']]`. -/
def get_docs_result (resp : RespV) : Except RaisedErr (List PyVal) := do
  let r ← parse_response resp
  let rowsV ← (pyGetItem r "rows").mapError RaisedErr.py
  let rows ← (pyIter rowsV).mapError RaisedErr.py
  rows.mapM (fun row => (pyGetItem row "doc").mapError RaisedErr.py)

/-- Request-side of `AsyncCouch.get_docs`: POST to
`{db}/_all_docs?include_docs=true` with body `{"keys": doc_ids}`. -/
def get_docs_request (c : Client) (doc_ids : List PyVal) : Except RaisedErr HTTPReq := do
  let body ← (json_encode (.dict [("keys", .list doc_ids)])).mapError RaisedErr.py
  http_post c (c.db_name ++ "/_all_docs") [("include_docs", "true")] body

/-- Python `d[k] = v` / `d.update({k: v})` on an insertion-ordered dict:
an existing key keeps its position, a new key is appended. -/
def assocSet (kvs : List (String × PyVal)) (k : String) (v : PyVal) :
    List (String × PyVal) :=
  if hasKey kvs k then kvs.map (fun kv => if kv.1 = k then (k, v) else kv)
  else kvs ++ [(k, v)]

/-- Python `body.update({'keys': value})`: dict update, AttributeError on a
non-dict receiver. -/
def pyDictUpdate (body : PyVal) (k : String) (v : PyVal) : Except PyErr PyVal :=
  match body with
  | .dict kvs => .ok (.dict (assocSet kvs k v))
  | _ => .error (.attributeError "object has no attribute update")

/-- The value of one query option in the packaged `_view`:
`url_escape(value if key in ('startkey_docid', 'endkey_docid') else
json_encode(value))`. -/
def encodeViewVal (k : String) (v : PyVal) : Except PyErr String :=
  if k = "startkey_docid" ∨ k = "endkey_docid" then url_escape_py v
  else (json_encode v).map url_escape

/-- The option-building loop of the packaged `AsyncCouch._view` over the
keyword arguments, threading the request body: a `body` keyword is skipped,
a `keys` keyword is merged into the body, any other keyword becomes the
query option `key=encodeViewVal(key, value)`. -/
def view_loop (body : PyVal) : List (String × PyVal) →
    Except PyErr (PyVal × List (String × String))
  | [] => .ok (body, [])
  | (k, v) :: rest =>
      if k = "body" then view_loop body rest
      else if k = "keys" then do
        let body2 ← pyDictUpdate body "keys" v
        view_loop body2 rest
      else do
        let ev ← encodeViewVal k v
        let br ← view_loop body rest
        .ok (br.1, (k, ev) :: br.2)

/-- Translation of `AsyncCouch._view` from `couch/couch.py`: run the
option loop starting from `kwargs.get('body', {})`, then POST the
JSON-encoded body when it is non-empty and GET otherwise. -/
def view_query (c : Client) (path : String) (params : List (String × PyVal)) :
    Except RaisedErr HTTPReq := do
  let body0 := (lookupKey params "body").getD (.dict [])
  let br ← (view_loop body0 params).mapError RaisedErr.py
  if pyTruthy br.1 then do
    let bs ← (json_encode br.1).mapError RaisedErr.py
    http_post c path br.2 bs
  else
    http_get c path br.2 []

/-- Translation of `AsyncCouch.view` (packaged module). -/
def view (c : Client) (design_doc_name view_name : String)
    (params : List (String × PyVal)) : Except RaisedErr HTTPReq :=
  view_query c (c.db_name ++ "/_design/" ++ design_doc_name ++ "/_view/" ++ view_name)
    params

/-- Translation of `AsyncCouch.view_all_docs` (packaged module). -/
def view_all_docs (c : Client) (params : List (String × PyVal)) :
    Except RaisedErr HTTPReq :=
  view_query c (c.db_name ++ "/_all_docs") params

/-- The option-building loop of the legacy `_view`: a `keys` keyword sets
the body to `json_encode({'keys': value})` (later assignments win), every
other keyword — with no docid exemption — becomes the query option
`key=url_escape(json_encode(value))` using tornado's `json_encode`. -/
def view_loop_legacy : List (String × PyVal) →
    Except PyErr (Option String × List (String × String))
  | [] => .ok (none, [])
  | (k, v) :: rest =>
      if k = "keys" then do
        let b ← tornado_json_encode (.dict [("keys", v)])
        let br ← view_loop_legacy rest
        .ok (some (br.1.getD b), br.2)
      else do
        let j ← tornado_json_encode v
        let br ← view_loop_legacy rest
        .ok (br.1, (k, url_escape j) :: br.2)

/-- Translation of the legacy `BlockingCouch._view` (its AsyncCouch variant
builds the identical request): POST when a body was assigned by a `keys`
keyword (the encoded body is a non-empty string, hence truthy), GET
otherwise. -/
def view_query_legacy (_c : Client) (path : String)
    (params : List (String × PyVal)) : Except RaisedErr HTTPReq := do
  let br ← (view_loop_legacy params).mapError RaisedErr.py
  match br.1 with
  | some b =>
      .ok { method := .POST, path := path, query := br.2, body := some b,
            headers := [("Accept", some "application/json"),
                        ("Content-Type", some "application/json")] }
  | none =>
      .ok { method := .GET, path := path, query := br.2, body := none,
            headers := [("Accept", some "application/json")] }

/-- Translation of the legacy `BlockingCouch.view`. -/
def view_legacy (c : Client) (design_doc_name view_name : String)
    (params : List (String × PyVal)) : Except RaisedErr HTTPReq :=
  view_query_legacy c
    ("/" ++ c.db_name ++ "/_design/" ++ design_doc_name ++ "/_view/" ++ view_name)
    params

/-- Translation of the legacy `BlockingCouch.view_all_docs`. -/
def view_all_docs_legacy (c : Client) (params : List (String × PyVal)) :
    Except RaisedErr HTTPReq :=
  view_query_legacy c ("/" ++ c.db_name ++ "/_all_docs") params

/-- Result of a legacy callback-style operation: the exceptions delivered
to the callback by local validation, and either a Python exception that
aborted the method or the request it dispatched to the transport (if any). -/
structure CbOutcome where
  cbErrs : List PyErr
  outcome : Except PyErr (Option HTTPReq)
deriving DecidableEq

/-- Python falsiness of the `mimetype` argument (`if not mimetype:` holds
for `None` and for the empty string). -/
def mtFalsy : Option String → Bool
  | none => true
  | some s => s = ""

/-- Header value taken from a Python value: kept when it is a string,
`None` otherwise (the claim-relevant case is the `None` that reaches the
`Accept` header when no mimetype was determined). -/
def headerValOf : Option PyVal → Option String
  | some (.str s) => some s
  | _ => none

/-- Translation of the legacy `AsyncCouch.get_attachment` from the root
module `couch.py` (lines 526-547).  Its validation branches deliver a
ValueError to the callback but do not return, so execution falls through
to the URL formatting and the `_http_get` call. -/
def get_attachment_legacy_async (c : Client) (doc : List (String × PyVal))
    (attachment_name : String) (mimetype : Option String) : CbOutcome :=
  let errs1 : List PyErr :=
    if hasKey doc "_id" then []
    else [.valueError "Missing key named _id in doc"]
  let step : Except PyErr (List PyErr × Option PyVal) :=
    if mtFalsy mimetype then
      if ¬ hasKey doc "_attachments" then
        .ok ([.valueError "No attachments in doc, cannot get content type of attachment"],
             mimetype.map PyVal.str)
      else do
        let attv ← pyGetItem (.dict doc) "_attachments"
        let b ← pyContains attachment_name attv
        if ¬ b then
          .ok ([.valueError "Document does not have an attachment by the given name"],
               mimetype.map PyVal.str)
        else do
          let av ← pyGetItem attv attachment_name
          let ct ← pyGetItem av "content_type"
          .ok ([], some ct)
    else .ok ([], mimetype.map PyVal.str)
  match step with
  | .error e => { cbErrs := errs1, outcome := .error e }
  | .ok (errs2, mt) =>
      match (do
        let idv ← pyGetItem (.dict doc) "_id"
        url_escape_py idv : Except PyErr String) with
      | .error e => { cbErrs := errs1 ++ errs2, outcome := .error e }
      | .ok eid =>
          { cbErrs := errs1 ++ errs2,
            outcome := .ok (some
              { method := .GET,
                path := "/" ++ c.db_name ++ "/" ++ eid ++ "/" ++
                        url_escape attachment_name,
                query := [], body := none,
                headers := [("Accept", headerValOf mt)] }) }

/-! ## The `request_args` heap model

Every `_http_*` method starts with `req_args = copy.deepcopy(self.request_args)`
and then mutates the copy in place (`req_args.update(kwargs)`,
`req_args.setdefault('headers', {}).update(...)`).  Whether the client's
configured `request_args` survives a call is exactly a question about this
mutation-through-references structure, so it is modelled with an explicit
heap: `request_args` dicts live in one store, their nested `headers` dicts
in another, and the client holds a reference into the first.  A value-only
embedding would make the frame property vacuous; here an aliasing bug
(e.g. dropping the deepcopy) would be observable. -/

/-- A value stored in a `request_args` dict: a primitive setting (kept
abstractly as a string) or a reference to a `headers` dict. -/
inductive ArgVal where
  | prim (v : String)
  | hdrRef (r : Nat)
deriving DecidableEq

/-- The mutable store: `request_args` dicts, `headers` dicts, and the next
fresh reference of each kind. -/
structure Heap where
  args : List (Nat × List (String × ArgVal))
  hdrs : List (Nat × List (String × Option String))
  nextA : Nat
  nextH : Nat
deriving DecidableEq

/-- First-match lookup by reference id. -/
def lookupRef {α : Type} (l : List (Nat × α)) (r : Nat) : Option α :=
  match l with
  | [] => none
  | (n, d) :: rest => if n = r then some d else lookupRef rest r

/-- First-match lookup in a string-keyed association list. -/
def assocLookup {α : Type} (kvs : List (String × α)) (k : String) : Option α :=
  match kvs with
  | [] => none
  | (k0, v) :: rest => if k0 = k then some v else assocLookup rest k

/-- Python `d[k] = v` on a generic insertion-ordered dict: an existing key
keeps its position, a new key is appended. -/
def assocSetV {α : Type} (kvs : List (String × α)) (k : String) (v : α) :
    List (String × α) :=
  if (assocLookup kvs k).isSome then
    kvs.map (fun kv => if kv.1 = k then (k, v) else kv)
  else kvs ++ [(k, v)]

/-- Python `d.update(new)` on a generic insertion-ordered dict. -/
def assocUpdateV {α : Type} (kvs new : List (String × α)) : List (String × α) :=
  new.foldl (fun acc kv => assocSetV acc kv.1 kv.2) kvs

/-- The `request_args` dict a reference points to (empty if dangling). -/
def getArgs (h : Heap) (r : Nat) : List (String × ArgVal) :=
  (lookupRef h.args r).getD []

/-- The `headers` dict a reference points to (empty if dangling). -/
def getHdrs (h : Heap) (r : Nat) : List (String × Option String) :=
  (lookupRef h.hdrs r).getD []

/-- In-place replacement of the dict a `request_args` reference points to. -/
def setArgsAt (h : Heap) (r : Nat) (d : List (String × ArgVal)) : Heap :=
  { h with args := h.args.map (fun e => if e.1 = r then (e.1, d) else e) }

/-- In-place replacement of the dict a `headers` reference points to. -/
def setHdrsAt (h : Heap) (r : Nat) (d : List (String × Option String)) : Heap :=
  { h with hdrs := h.hdrs.map (fun e => if e.1 = r then (e.1, d) else e) }

/-- Allocation of a fresh `headers` dict. -/
def allocHdr (h : Heap) (d : List (String × Option String)) : Heap × Nat :=
  ({ h with hdrs := (h.nextH, d) :: h.hdrs, nextH := h.nextH + 1 }, h.nextH)

/-- Allocation of a fresh `request_args` dict. -/
def allocArgs (h : Heap) (d : List (String × ArgVal)) : Heap × Nat :=
  ({ h with args := (h.nextA, d) :: h.args, nextA := h.nextA + 1 }, h.nextA)

/-- Python `dict.update` on the `headers` dict behind a reference. -/
def updateHdrsAt (h : Heap) (r : Nat) (new : List (String × Option String)) : Heap :=
  setHdrsAt h r (assocUpdateV (getHdrs h r) new)

/-- Python `dict.update` on the `request_args` dict behind a reference. -/
def updateArgsAt (h : Heap) (r : Nat) (new : List (String × ArgVal)) : Heap :=
  setArgsAt h r (assocUpdateV (getArgs h r) new)

/-- Deep copy (`copy.deepcopy`) of the entries of a `request_args` dict: primitive
values are copied as values, each nested `headers` dict is copied into a
freshly allocated dict. -/
def copyArgEntries (h : Heap) : List (String × ArgVal) →
    Heap × List (String × ArgVal)
  | [] => (h, [])
  | (k, .prim s) :: rest =>
      let hr := copyArgEntries h rest
      (hr.1, (k, .prim s) :: hr.2)
  | (k, .hdrRef r) :: rest =>
      let d := getHdrs h r
      let ha := allocHdr h d
      let hr := copyArgEntries ha.1 rest
      (hr.1, (k, .hdrRef ha.2) :: hr.2)

/-- Statement `req_args = copy.deepcopy(self.request_args)`: deep copy of the dict at
the given reference into a freshly allocated `request_args` dict. -/
def deepcopyArgs (h : Heap) (r : Nat) : Heap × Nat :=
  let hc := copyArgEntries h (getArgs h r)
  allocArgs hc.1 hc.2

/-- Call `req_args.setdefault('headers', dict())`: return the existing `headers`
entry, or insert and return a freshly allocated empty dict.  A primitive
value stored under `headers` would be returned as is and the subsequent
`.update(...)` on it would raise AttributeError; that case is collapsed
into the error here. -/
def setdefaultHeaders (h : Heap) (r : Nat) : Except PyErr (Heap × Nat) :=
  match assocLookup (getArgs h r) "headers" with
  | some (.hdrRef hr) => .ok (h, hr)
  | some (.prim _) => .error (.attributeError "object has no attribute update")
  | none =>
      let ha := allocHdr h []
      .ok (setArgsAt ha.1 r (assocSetV (getArgs ha.1 r) "headers" (.hdrRef ha.2)),
           ha.2)

/-- The configured state of a client in the heap model: the reference to
its `request_args` plus the plain configured fields. -/
structure ClientH where
  argsRef : Nat
  db_name : String
  couch_url : String
  closed : Bool
deriving DecidableEq

/-- Heap-level translation of `AsyncCouch._http_get`: closed test, deep
copy, merge of the caller's headers, Accept default. -/
def http_get_heap (h : Heap) (c : ClientH)
    (headers : List (String × Option String)) : Heap × Except PyErr Unit :=
  if c.closed then (h, .error closedAttrError)
  else
    let dc := deepcopyArgs h c.argsRef
    match setdefaultHeaders dc.1 dc.2 with
    | .error e => (dc.1, .error e)
    | .ok (h2, hr) =>
        let h3 := updateHdrsAt h2 hr headers
        let h4 :=
          if (assocLookup (getHdrs h3 hr) "Accept").isSome then h3
          else updateHdrsAt h3 hr [("Accept", some "application/json")]
        (h4, .ok ())

/-- Heap-level translation of `AsyncCouch._http_post`: closed test, deep
copy, `req_args.update(kwargs)` (the call sites pass only scalar settings
such as `request_timeout`, so the overrides are primitive values), merge of
the fixed Accept/Content-Type headers. -/
def http_post_heap (h : Heap) (c : ClientH) (kwargs : List (String × String)) :
    Heap × Except PyErr Unit :=
  if c.closed then (h, .error closedAttrError)
  else
    let dc := deepcopyArgs h c.argsRef
    let h2 := updateArgsAt dc.1 dc.2 (kwargs.map (fun kv => (kv.1, .prim kv.2)))
    match setdefaultHeaders h2 dc.2 with
    | .error e => (h2, .error e)
    | .ok (h3, hr) =>
        (updateHdrsAt h3 hr
          [("Accept", some "application/json"),
           ("Content-Type", some "application/json")], .ok ())

/-- Heap-level translation of `AsyncCouch._http_put` (`bodyTruthy` records
whether a non-empty body was supplied). -/
def http_put_heap (h : Heap) (c : ClientH) (bodyTruthy : Bool)
    (headers : List (String × Option String)) : Heap × Except PyErr Unit :=
  if c.closed then (h, .error closedAttrError)
  else
    let dc := deepcopyArgs h c.argsRef
    match setdefaultHeaders dc.1 dc.2 with
    | .error e => (dc.1, .error e)
    | .ok (h2, hr) =>
        let h3 := updateHdrsAt h2 hr headers
        let h4 :=
          if bodyTruthy ∧ ¬ (assocLookup (getHdrs h3 hr) "Content-Type").isSome then
            updateHdrsAt h3 hr [("Content-Type", some "application/json")]
          else h3
        let h5 :=
          if (assocLookup (getHdrs h4 hr) "Accept").isSome then h4
          else updateHdrsAt h4 hr [("Accept", some "application/json")]
        (h5, .ok ())

/-- Heap-level translation of `AsyncCouch._http_delete`. -/
def http_delete_heap (h : Heap) (c : ClientH) : Heap × Except PyErr Unit :=
  if c.closed then (h, .error closedAttrError)
  else
    let dc := deepcopyArgs h c.argsRef
    match setdefaultHeaders dc.1 dc.2 with
    | .error e => (dc.1, .error e)
    | .ok (h2, hr) =>
        (updateHdrsAt h2 hr [("Accept", some "application/json")], .ok ())

/-- Heap-level translation of `AsyncCouch._http_head` (deep copy only). -/
def http_head_heap (h : Heap) (c : ClientH) : Heap × Except PyErr Unit :=
  if c.closed then (h, .error closedAttrError)
  else ((deepcopyArgs h c.argsRef).1, .ok ())

/-- A `request_args` value read through the heap, with the nested
`headers` dict resolved to its contents. -/
inductive Resolved where
  | prim (s : String)
  | hdrs (d : List (String × Option String))
deriving DecidableEq

/-- The full configured `request_args` of a client, read through its
reference with nested `headers` dicts resolved. -/
def resolveArgs (h : Heap) (r : Nat) : List (String × Resolved) :=
  (getArgs h r).map (fun kv =>
    (kv.1, match kv.2 with
           | .prim s => Resolved.prim s
           | .hdrRef hr => Resolved.hdrs (getHdrs h hr)))

/-- Well-formedness of a heap: every allocated reference and every
`headers` reference stored in a `request_args` dict is below the
corresponding fresh-reference counter. -/
def heapWF (h : Heap) : Bool :=
  h.args.all (fun e =>
    decide (e.1 < h.nextA) &&
    e.2.all (fun kv => match kv.2 with
                       | .hdrRef hr => decide (hr < h.nextH)
                       | .prim _ => true)) &&
  h.hdrs.all (fun e => decide (e.1 < h.nextH))

/-! ## Helper lemmas -/

theorem exceptBindCases {ε α β : Type} {m : Except ε α} {f : α → Except ε β} {e : ε}
    (h : (m >>= f) = .error e) : m = .error e ∨ ∃ a, m = .ok a ∧ f a = .error e := by
  cases m with
  | error x => exact Or.inl (by simpa [Bind.bind, Except.bind] using h)
  | ok a => exact Or.inr ⟨a, rfl, by simpa [Bind.bind, Except.bind] using h⟩

theorem bindOkLeft {ε α β : Type} {m : Except ε α} {f : α → Except ε β} {a : α}
    (h : m = .ok a) : (m >>= f) = f a := by
  subst h
  rfl

theorem bindErrLeft {ε α β : Type} {m : Except ε α} {f : α → Except ε β} {e : ε}
    (h : m = .error e) : (m >>= f) = .error e := by
  subst h
  rfl

/-! ## Lemmas about the JSON encoder -/

theorem dumpsErrOnly :
    ∀ (v : PyVal) (e : PyErr), dumps false v = .error e → e = .valueError oorMsg := by
  apply dumps.induct false
    (fun v => ∀ e, dumps false v = .error e → e = .valueError oorMsg)
    (fun kvs => ∀ e, dumpsPairs false kvs = .error e → e = .valueError oorMsg)
    (fun xs => ∀ e, dumpsElems false xs = .error e → e = .valueError oorMsg)
  case case4 =>
    intro f e h
    cases f <;> simp_all [dumps, dumpsFloat]
  case case6 =>
    intro xs ih e h
    simp only [dumps] at h
    rcases exceptBindCases h with h1 | ⟨a, _, hf⟩
    · exact ih e h1
    · exact Except.noConfusion hf
  case case7 =>
    intro kvs ih e h
    simp only [dumps] at h
    rcases exceptBindCases h with h1 | ⟨a, _, hf⟩
    · exact ih e h1
    · exact Except.noConfusion hf
  case case9 =>
    intro v vs ihv ihvs e h
    simp only [dumpsElems] at h
    rcases exceptBindCases h with h1 | ⟨a, _, hf⟩
    · exact ihv e h1
    · rcases exceptBindCases hf with h2 | ⟨b, _, hg⟩
      · exact ihvs e h2
      · exact Except.noConfusion hg
  case case11 =>
    intro k v vs ihv ihvs e h
    simp only [dumpsPairs] at h
    rcases exceptBindCases h with h1 | ⟨a, _, hf⟩
    · exact ihv e h1
    · rcases exceptBindCases hf with h2 | ⟨b, _, hg⟩
      · exact ihvs e h2
      · exact Except.noConfusion hg
  all_goals intros
  all_goals simp_all [dumps, dumpsElems, dumpsPairs]

theorem dumpsElemsErrOfMem {v : PyVal} :
    ∀ {xs : List PyVal}, v ∈ xs → dumps false v = .error (.valueError oorMsg) →
      dumpsElems false xs = .error (.valueError oorMsg) := by
  intro xs
  induction xs with
  | nil => intro h; cases h
  | cons x xs ih =>
      intro hmem hv
      rcases List.mem_cons.mp hmem with heq | htl
      · subst heq
        simp only [dumpsElems]
        rw [bindErrLeft hv]
      · simp only [dumpsElems]
        cases hx : dumps false x with
        | error e =>
            rw [dumpsErrOnly x e hx]
            rfl
        | ok s =>
            show (dumpsElems false xs >>= fun rest => Except.ok (s :: rest)) =
              Except.error (.valueError oorMsg)
            rw [bindErrLeft (ih htl hv)]

theorem dumpsPairsErrOfMem {k : String} {v : PyVal} :
    ∀ {kvs : List (String × PyVal)}, (k, v) ∈ kvs →
      dumps false v = .error (.valueError oorMsg) →
      dumpsPairs false kvs = .error (.valueError oorMsg) := by
  intro kvs
  induction kvs with
  | nil => intro h; cases h
  | cons x xs ih =>
      intro hmem hv
      obtain ⟨k0, v0⟩ := x
      rcases List.mem_cons.mp hmem with heq | htl
      · cases heq
        simp only [dumpsPairs]
        rw [bindErrLeft hv]
      · simp only [dumpsPairs]
        cases hx : dumps false v0 with
        | error e =>
            rw [dumpsErrOnly v0 e hx]
            rfl
        | ok s =>
            show (dumpsPairs false xs >>= fun rest => Except.ok ((dumpsStr k0 ++ ": " ++ s) :: rest)) =
              Except.error (.valueError oorMsg)
            rw [bindErrLeft (ih htl hv)]

theorem dumpsErrOfNonFinite {v : PyVal} (h : HasNonFinite v) :
    dumps false v = .error (.valueError oorMsg) := by
  induction h with
  | nan => rfl
  | inf => rfl
  | ninf => rfl
  | inList hmem _ ih =>
      simp only [dumps]
      rw [bindErrLeft (dumpsElemsErrOfMem hmem ih)]
  | inDict hmem _ ih =>
      simp only [dumps]
      rw [bindErrLeft (dumpsPairsErrOfMem hmem ih)]

theorem hasLtSlashConsNe {c : Char} (l : List Char) (hc : c ≠ '<') :
    hasLtSlash (c :: l) = hasLtSlash l := by
  cases l with
  | nil => rfl
  | cons b t => simp [hasLtSlash, hc]

theorem hasLtSlashCons2 (a b : Char) (rest : List Char) :
    hasLtSlash (a :: b :: rest) = ((a = '<' && b = '/') || hasLtSlash (b :: rest)) := rfl

theorem replaceLtSlashHead (b : Char) (rest : List Char) :
    ∃ t, (replaceLtSlash (b :: rest) = b :: t ∨ replaceLtSlash (b :: rest) = '<' :: t) := by
  cases rest with
  | nil => exact ⟨[], Or.inl rfl⟩
  | cons c t =>
      by_cases hp : b = '<' ∧ c = '/'
      · refine ⟨'\\' :: '/' :: replaceLtSlash t, Or.inr ?_⟩
        simp [replaceLtSlash, hp]
      · refine ⟨replaceLtSlash (c :: t), Or.inl ?_⟩
        simp [replaceLtSlash, hp]

theorem hasLtSlashReplace : ∀ (l : List Char), hasLtSlash (replaceLtSlash l) = false := by
  apply replaceLtSlash.induct
  · rfl
  · intro c
    rfl
  · intro a b rest hp ih
    obtain ⟨ha, hb⟩ := hp
    subst ha
    subst hb
    have hr : replaceLtSlash ('<' :: '/' :: rest) = '<' :: '\\' :: '/' :: replaceLtSlash rest := by
      simp [replaceLtSlash]
    rw [hr, hasLtSlashCons2, hasLtSlashCons2, hasLtSlashConsNe _ (by decide)]
    simp [ih]
  · intro a b rest hp ih
    have hr : replaceLtSlash (a :: b :: rest) = a :: replaceLtSlash (b :: rest) := by
      simp [replaceLtSlash, hp]
    rw [hr]
    by_cases ha : a = '<'
    · subst ha
      have hb : b ≠ '/' := fun hb => hp ⟨rfl, hb⟩
      obtain ⟨t, ht⟩ := replaceLtSlashHead b rest
      rcases ht with ht | ht
      · rw [ht]
        rw [ht] at ih
        rw [hasLtSlashCons2]
        simp [ih, hb]
      · rw [ht]
        rw [ht] at ih
        rw [hasLtSlashCons2]
        simp [ih]
    · rw [hasLtSlashConsNe _ ha]
      exact ih

/-! ## Claim C8: the JSON encoder -/

/-- C8: `json_encode` raises a hard error (the json module's ValueError) for
every input containing a non-finite numeric value (NaN or an infinity), and
for every encodable input its output contains no occurrence of the
two-character substring `</`, so JSON request bodies never embed an
unescaped closing-script-tag prefix. -/
theorem c8_json_encode (v : PyVal) :
    (HasNonFinite v → json_encode v = .error (.valueError oorMsg)) ∧
    (∀ s, json_encode v = .ok s → hasLtSlash s.data = false) := by
  constructor
  · intro h
    unfold json_encode
    rw [dumpsErrOfNonFinite h]
    rfl
  · intro s hs
    unfold json_encode at hs
    cases hd : dumps false v with
    | error e =>
        rw [hd] at hs
        exact Except.noConfusion hs
    | ok s0 =>
        rw [hd] at hs
        have hm : Except.ok (String.mk (replaceLtSlash s0.data)) = Except.ok s := hs
        have hv : String.mk (replaceLtSlash s0.data) = s := by
          injection hm
        rw [← hv]
        exact hasLtSlashReplace s0.data

/-- Witness for C8: a list containing NaN is rejected with the json
module's ValueError, and the encoding of the string `</script>` is free of
the substring `</`. -/
theorem c8_json_encode_witness :
    (HasNonFinite (PyVal.list [.float .nan]) ∧
      json_encode (PyVal.list [.float .nan]) = .error (.valueError oorMsg)) ∧
    (json_encode (PyVal.str "</script>") = .ok "\"<\\/script>\"" ∧
      hasLtSlash ("\"<\\/script>\"").data = false) := by
  have hnf : HasNonFinite (PyVal.list [.float .nan]) :=
    HasNonFinite.inList (List.Mem.head _) HasNonFinite.nan
  have hok : json_encode (PyVal.str "</script>") = .ok "\"<\\/script>\"" := rfl
  exact ⟨⟨hnf, (c8_json_encode (PyVal.list [.float .nan])).1 hnf⟩,
         ⟨hok, (c8_json_encode (PyVal.str "</script>")).2 _ hok⟩⟩

/-! ## Claim C2: the error classifier -/

theorem msgOrDefaultStr {d : String} (c : Nat) (hd : d ≠ "") :
    msgOrDefault (some (.str d)) c = .str d := by
  simp [msgOrDefault, pyTruthy, hd]

/-- C2 (amended): the classifier is a total function of the status code and
independent of the order of the checks (its kind is `codeKind` of the
code); every result keeps the original code and response; each of the
seven specific kinds carries its fixed description in place of the server's
reason; for every other status the generic CouchException's message is the
standard HTTP phrase of the code (`"Unknown"` if the code has none) — the
server's reason string is not kept in the message and remains accessible
only through the attached response. -/
theorem c2_relax_exception (e : HTTPErrorV) :
    (relax_exception e).kind = codeKind e.code ∧
    (relax_exception e).code = e.code ∧
    (relax_exception e).response = e.response ∧
    (e.code = 304 → (relax_exception e).message = .str notModifiedDesc) ∧
    (e.code = 400 → (relax_exception e).message = .str badRequestDesc) ∧
    (e.code = 404 → (relax_exception e).message = .str notFoundDesc) ∧
    (e.code = 405 → (relax_exception e).message = .str methodNotAllowedDesc) ∧
    (e.code = 409 → (relax_exception e).message = .str conflictDesc) ∧
    (e.code = 412 → (relax_exception e).message = .str preconditionFailedDesc) ∧
    (e.code = 500 → (relax_exception e).message = .str internalServerErrorDesc) ∧
    (codeKind e.code = .generic →
      (relax_exception e).message = .str (stdReason e.code)) := by
  refine ⟨?_, ?_, ?_, ?_, ?_, ?_, ?_, ?_, ?_, ?_, ?_⟩
  · simp only [relax_exception, codeKind, couchExcInit]
    split_ifs <;> rfl
  · simp only [relax_exception, couchExcInit]
    split_ifs <;> rfl
  · simp only [relax_exception, couchExcInit]
    split_ifs <;> rfl
  · intro h
    have hm := msgOrDefaultStr (d := notModifiedDesc) 304 (by decide)
    simp [relax_exception, h, couchExcInit, hm]
  · intro h
    have hm := msgOrDefaultStr (d := badRequestDesc) 400 (by decide)
    simp [relax_exception, h, couchExcInit, hm]
  · intro h
    have hm := msgOrDefaultStr (d := notFoundDesc) 404 (by decide)
    simp [relax_exception, h, couchExcInit, hm]
  · intro h
    have hm := msgOrDefaultStr (d := methodNotAllowedDesc) 405 (by decide)
    simp [relax_exception, h, couchExcInit, hm]
  · intro h
    have hm := msgOrDefaultStr (d := conflictDesc) 409 (by decide)
    simp [relax_exception, h, couchExcInit, hm]
  · intro h
    have hm := msgOrDefaultStr (d := preconditionFailedDesc) 412 (by decide)
    simp [relax_exception, h, couchExcInit, hm]
  · intro h
    have hm := msgOrDefaultStr (d := internalServerErrorDesc) 500 (by decide)
    simp [relax_exception, h, couchExcInit, hm]
  · intro h
    unfold codeKind at h
    split_ifs at h
    all_goals try simp_all
    unfold relax_exception
    split_ifs
    simp [couchExcInit, msgOrDefault]

/-- Witness for C2: a 599 error with reason `boom` is classified as the
generic kind with its code and response preserved. -/
theorem c2_relax_exception_witness :
    codeKind 599 = .generic ∧
    (relax_exception (mkHTTPError 599 (some (.str "boom"))
        { code := 599, bodyJson := .none_ })).message = .str (stdReason 599) := by
  refine ⟨rfl, ?_⟩
  exact (c2_relax_exception (mkHTTPError 599 (some (.str "boom"))
    { code := 599, bodyJson := .none_ })).2.2.2.2.2.2.2.2.2.2 rfl

/-- Counterexample for C2 as stated: for a status outside the taxonomy the
generic CouchException does not carry the server's reason verbatim — the
classifier of the packaged module passes `msg=None` to the CouchException
constructor, so the stored message falls back to the standard phrase
(`"Unknown"` for 599) and the reason `boom` survives only inside the
attached response. -/
theorem c2_relax_exception_cex :
    (relax_exception (mkHTTPError 599 (some (.str "boom"))
        { code := 599, bodyJson := .none_ })).kind = .generic ∧
    (relax_exception (mkHTTPError 599 (some (.str "boom"))
        { code := 599, bodyJson := .none_ })).message = .str "Unknown" ∧
    (relax_exception (mkHTTPError 599 (some (.str "boom"))
        { code := 599, bodyJson := .none_ })).message ≠ .str "boom" := by
  refine ⟨rfl, rfl, ?_⟩
  have h : (relax_exception (mkHTTPError 599 (some (.str "boom"))
      { code := 599, bodyJson := .none_ })).message = .str "Unknown" := rfl
  rw [h]
  intro hc
  injection hc with hs
  exact absurd hs (by decide)

/-! ## Claims C1 and C5: the response interpreter -/

/-- Whether a decoded value is a JSON object. -/
def isObj : PyVal → Bool
  | .dict _ => true
  | _ => false

/-- The value under a key of a decoded JSON object (none for non-objects). -/
def keyOf (v : PyVal) (k : String) : Option PyVal :=
  match v with
  | .dict kvs => lookupKey kvs k
  | _ => none

/-- Whether a decoded value is an object carrying an `error` key. -/
def hasErrKey (v : PyVal) : Bool :=
  (keyOf v "error").isSome

/-- The status code the packaged module infers from an error string:
`not_found` gives 404, `conflict` gives 409, anything else 400 (this is
`to_code` restricted to strings). -/
def inferredCode (s : String) : Nat :=
  if s = "not_found" then 404 else if s = "conflict" then 409 else 400

theorem scanItemsOk (resp : RespV) :
    ∀ items, (∀ it ∈ items, isObj it = true ∧ hasErrKey it = false) →
      scanItems resp items = .ok () := by
  intro items
  induction items with
  | nil => intro _; rfl
  | cons it rest ih =>
      intro h
      obtain ⟨ho, he⟩ := h it (List.mem_cons_self it rest)
      cases it with
      | dict kvs =>
          have hk : hasKey kvs "error" = false := by
            simpa [hasErrKey, keyOf, hasKey] using he
          simp only [scanItems, pyContains, Except.mapError, hk]
          exact ih (fun p hp => h p (List.mem_cons_of_mem _ hp))
      | none_ => simp [isObj] at ho
      | bool b => simp [isObj] at ho
      | int n => simp [isObj] at ho
      | float f => simp [isObj] at ho
      | str s => simp [isObj] at ho
      | list xs => simp [isObj] at ho

theorem scanItemsFirstErr (resp : RespV) :
    ∀ pre (d : PyVal) rest s rv,
      (∀ p ∈ pre, isObj p = true ∧ hasErrKey p = false) →
      keyOf d "error" = some (.str s) → keyOf d "reason" = some rv →
      scanItems resp (pre ++ d :: rest) =
        .error (.couch (relax_exception
          (mkHTTPError (inferredCode s) (some rv) resp))) := by
  intro pre
  induction pre with
  | nil =>
      intro d rest s rv _ herr hreason
      cases d with
      | dict kvs =>
          have hk : hasKey kvs "error" = true := by
            simp [hasKey, show lookupKey kvs "error" = some (.str s) from herr]
          simp only [List.nil_append, scanItems, pyContains, Except.mapError, hk,
            if_true, pyGetItem, show lookupKey kvs "error" = some (.str s) from herr,
            show lookupKey kvs "reason" = some rv from hreason, to_code, inferredCode]
          rfl
      | none_ => simp [keyOf] at herr
      | bool b => simp [keyOf] at herr
      | int n => simp [keyOf] at herr
      | float f => simp [keyOf] at herr
      | str s2 => simp [keyOf] at herr
      | list xs => simp [keyOf] at herr
  | cons p pre ih =>
      intro d rest s rv hpre herr hreason
      obtain ⟨ho, he⟩ := hpre p (List.mem_cons_self p pre)
      cases p with
      | dict kvs =>
          have hk : hasKey kvs "error" = false := by
            simpa [hasErrKey, keyOf, hasKey] using he
          simp only [List.cons_append, scanItems, pyContains, Except.mapError, hk]
          exact ih d rest s rv (fun q hq => hpre q (List.mem_cons_of_mem _ hq))
            herr hreason
      | none_ => simp [isObj] at ho
      | bool b => simp [isObj] at ho
      | int n => simp [isObj] at ho
      | float f => simp [isObj] at ho
      | str s2 => simp [isObj] at ho
      | list xs => simp [isObj] at ho

theorem scanRowsOk (resp : RespV) :
    ∀ rows, (∀ r ∈ rows, isObj r = true ∧ hasErrKey r = false) →
      scanRows resp rows = .ok () := by
  intro rows
  induction rows with
  | nil => intro _; rfl
  | cons r rest ih =>
      intro h
      obtain ⟨ho, he⟩ := h r (List.mem_cons_self r rest)
      cases r with
      | dict kvs =>
          have hk : hasKey kvs "error" = false := by
            simpa [hasErrKey, keyOf, hasKey] using he
          simp only [scanRows, pyContains, Except.mapError, hk]
          exact ih (fun p hp => h p (List.mem_cons_of_mem _ hp))
      | none_ => simp [isObj] at ho
      | bool b => simp [isObj] at ho
      | int n => simp [isObj] at ho
      | float f => simp [isObj] at ho
      | str s => simp [isObj] at ho
      | list xs => simp [isObj] at ho

theorem scanRowsFirstErr (resp : RespV) :
    ∀ pre (d : PyVal) rest s,
      (∀ p ∈ pre, isObj p = true ∧ hasErrKey p = false) →
      keyOf d "error" = some (.str s) →
      scanRows resp (pre ++ d :: rest) =
        .error (.couch (relax_exception
          (mkHTTPError (inferredCode s) (some (.str s)) resp))) := by
  intro pre
  induction pre with
  | nil =>
      intro d rest s _ herr
      cases d with
      | dict kvs =>
          have hk : hasKey kvs "error" = true := by
            simp [hasKey, show lookupKey kvs "error" = some (.str s) from herr]
          simp only [List.nil_append, scanRows, pyContains, Except.mapError, hk,
            if_true, pyGetItem, show lookupKey kvs "error" = some (.str s) from herr,
            to_code, inferredCode]
          rfl
      | none_ => simp [keyOf] at herr
      | bool b => simp [keyOf] at herr
      | int n => simp [keyOf] at herr
      | float f => simp [keyOf] at herr
      | str s2 => simp [keyOf] at herr
      | list xs => simp [keyOf] at herr
  | cons p pre ih =>
      intro d rest s hpre herr
      obtain ⟨ho, he⟩ := hpre p (List.mem_cons_self p pre)
      cases p with
      | dict kvs =>
          have hk : hasKey kvs "error" = false := by
            simpa [hasErrKey, keyOf, hasKey] using he
          simp only [List.cons_append, scanRows, pyContains, Except.mapError, hk]
          exact ih d rest s (fun q hq => hpre q (List.mem_cons_of_mem _ hq)) herr
      | none_ => simp [isObj] at ho
      | bool b => simp [isObj] at ho
      | int n => simp [isObj] at ho
      | float f => simp [isObj] at ho
      | str s2 => simp [isObj] at ho
      | list xs => simp [isObj] at ho

theorem exceptBindOkCases {ε α β : Type} {m : Except ε α} {f : α → Except ε β} {b : β}
    (h : (m >>= f) = .ok b) : ∃ a, m = .ok a ∧ f a = .ok b := by
  cases m with
  | error x => simp [Bind.bind, Except.bind] at h
  | ok a => exact ⟨a, rfl, h⟩

theorem scanRowsOkAll (resp : RespV) :
    ∀ rows, scanRows resp rows = .ok () → ∀ r ∈ rows, hasErrKey r = false := by
  intro rows
  induction rows with
  | nil => intro _ r hr; cases hr
  | cons r rest ih =>
      intro h r0 hr0
      simp only [scanRows] at h
      obtain ⟨b, hm, h2⟩ := exceptBindOkCases h
      cases b with
      | true =>
          rw [if_pos rfl] at h2
          obtain ⟨ev, _, h3⟩ := exceptBindOkCases h2
          obtain ⟨code, _, h4⟩ := exceptBindOkCases h3
          exact Except.noConfusion h4
      | false =>
          rw [if_neg (by simp)] at h2
          rcases List.mem_cons.mp hr0 with heq | htl
          · subst heq
            cases r0 with
            | dict kvs =>
                have hb : hasKey kvs "error" = false := by
                  have : pyContains "error" (.dict kvs) = .ok (hasKey kvs "error") := rfl
                  rw [this] at hm
                  have := congrArg (fun x => match x with
                    | Except.ok v => v
                    | Except.error _ => true) hm
                  simpa using this
                simpa [hasErrKey, keyOf, hasKey] using hb
            | none_ => rfl
            | bool bb => rfl
            | int n => rfl
            | float f => rfl
            | str s => rfl
            | list xs => rfl
          · exact ih h2 r0 htl

theorem scanRowsErrOfExists (resp : RespV) :
    ∀ rows, (∃ r ∈ rows, hasErrKey r = true) →
      ∃ e, scanRows resp rows = .error e := by
  intro rows hex
  cases hres : scanRows resp rows with
  | error e => exact ⟨e, rfl⟩
  | ok u =>
      exfalso
      obtain ⟨r, hr, herr⟩ := hex
      cases u
      rw [scanRowsOkAll resp rows hres r hr] at herr
      exact Bool.noConfusion herr

/-- Splitting a list at its first element satisfying a boolean property. -/
theorem firstWitnessSplit {α : Type} (p : α → Bool) :
    ∀ (l : List α), (∃ x ∈ l, p x = true) →
      ∃ pre d rest, l = pre ++ d :: rest ∧ (∀ q ∈ pre, p q = false) ∧ p d = true := by
  intro l
  induction l with
  | nil => intro ⟨x, hx, _⟩; cases hx
  | cons a l ih =>
      intro ⟨x, hx, hpx⟩
      cases ha : p a with
      | true =>
          refine ⟨[], a, l, rfl, ?_, ha⟩
          intro q hq
          cases hq
      | false =>
          have hex : ∃ x ∈ l, p x = true := by
            rcases List.mem_cons.mp hx with heq | htl
            · subst heq; rw [ha] at hpx; cases hpx
            · exact ⟨x, htl, hpx⟩
          obtain ⟨pre, d, rest, hl, hpre, hd⟩ := ih hex
          refine ⟨a :: pre, d, rest, by simp [hl], ?_, hd⟩
          intro q hq
          rcases List.mem_cons.mp hq with heq | htl
          · subst heq; exact ha
          · exact hpre q htl

/-- C1 (amended): for the packaged module's response interpreter, over
decoded bodies whose scanned positions are well-shaped objects (elements
and rows are objects, with a string `error` and — where the code reads it —
a `reason` alongside): (1) a list body is scanned in order and the first
element with an `error` key raises the classification of the status
inferred from the error string (`not_found` 404, `conflict` 409, else 400)
with that element's `reason`; (2) an object with an `error` key raises the
classification of the response's own status with the object's `reason`;
(3) an object with a `rows` key is scanned in order and the first row with
an `error` key raises the classification of the inferred status with the
error string as message — in particular a 200 response whose rows carry
error `not_found` raises NotFound; with no error found the decoded value is
returned unchanged.  (The legacy root module departs from this: its tiers
(1) and (3) use the response's own status unless the error string is
`not_found`, see the counterexample.) -/
theorem c1_parse_response (resp : RespV) :
    (∀ items, resp.bodyJson = .list items →
      ((∀ it ∈ items, isObj it = true ∧ hasErrKey it = false) →
          parse_response resp = .ok (.list items)) ∧
      (∀ pre d rest s rv, items = pre ++ d :: rest →
          (∀ p ∈ pre, isObj p = true ∧ hasErrKey p = false) →
          keyOf d "error" = some (.str s) → keyOf d "reason" = some rv →
          parse_response resp = .error (.couch (relax_exception
            (mkHTTPError (inferredCode s) (some rv) resp))))) ∧
    (∀ kvs ev rv, resp.bodyJson = .dict kvs →
      lookupKey kvs "error" = some ev →
      lookupKey kvs "reason" = some rv →
      parse_response resp = .error (.couch (relax_exception
        (mkHTTPError resp.code (some rv) resp)))) ∧
    (∀ kvs rows, resp.bodyJson = .dict kvs →
      hasKey kvs "error" = false →
      lookupKey kvs "rows" = some (.list rows) →
      ((∀ r ∈ rows, isObj r = true ∧ hasErrKey r = false) →
          parse_response resp = .ok (.dict kvs)) ∧
      (∀ pre d rest s, rows = pre ++ d :: rest →
          (∀ p ∈ pre, isObj p = true ∧ hasErrKey p = false) →
          keyOf d "error" = some (.str s) →
          parse_response resp = .error (.couch (relax_exception
            (mkHTTPError (inferredCode s) (some (.str s)) resp)))) ∧
      (∀ pre d rest, resp.code = 200 → rows = pre ++ d :: rest →
          (∀ p ∈ pre, isObj p = true ∧ hasErrKey p = false) →
          keyOf d "error" = some (.str "not_found") →
          raisedKind (parse_response resp) = some .notFound)) ∧
    (∀ kvs, resp.bodyJson = .dict kvs →
      hasKey kvs "error" = false → hasKey kvs "rows" = false →
      parse_response resp = .ok (.dict kvs)) := by
  refine ⟨?_, ?_, ?_, ?_⟩
  · intro items hbody
    have hp : parse_response resp =
        (scanItems resp items >>= fun _ => Except.ok (PyVal.list items)) := by
      simp only [parse_response, hbody]
    constructor
    · intro hall
      rw [hp, bindOkLeft (scanItemsOk resp items hall)]
    · intro pre d rest s rv hsplit hpre herr hreason
      subst hsplit
      rw [hp, bindErrLeft (scanItemsFirstErr resp pre d rest s rv hpre herr hreason)]
  · intro kvs ev rv hbody herr hreason
    have hk : hasKey kvs "error" = true := by simp [hasKey, herr]
    simp [parse_response, hbody, pyContains, pyGetItem, hk, hreason,
      Except.mapError, Bind.bind, Except.bind]
  · intro kvs rows hbody herrF hrows
    have hkr : hasKey kvs "rows" = true := by simp [hasKey, hrows]
    have hp : parse_response resp =
        (scanRows resp rows >>= fun _ => Except.ok (PyVal.dict kvs)) := by
      simp [parse_response, hbody, pyContains, pyGetItem, herrF, hkr, hrows, pyIter,
        Except.mapError, Bind.bind, Except.bind]
    refine ⟨?_, ?_, ?_⟩
    · intro hall
      rw [hp, bindOkLeft (scanRowsOk resp rows hall)]
    · intro pre d rest s hsplit hpre herr
      subst hsplit
      rw [hp, bindErrLeft (scanRowsFirstErr resp pre d rest s hpre herr)]
    · intro pre d rest _ hsplit hpre herr
      subst hsplit
      rw [hp, bindErrLeft (scanRowsFirstErr resp pre d rest "not_found" hpre herr)]
      rfl
  · intro kvs hbody herrF hrowsF
    simp [parse_response, hbody, pyContains, herrF, hrowsF,
      Except.mapError, Bind.bind, Except.bind]

/-- Body of the witness response for C1: a 200 reply whose rows carry a
`not_found` error. -/
def respRowsNotFound : RespV :=
  { code := 200,
    bodyJson := .dict [("rows", .list [.dict [("error", .str "not_found"),
      ("key", .str "a")]])] }

/-- Witness for C1: a 200 response whose rows contain error `not_found` is
classified as NotFound despite the transport-level success status. -/
theorem c1_parse_response_witness :
    respRowsNotFound.code = 200 ∧
    raisedKind (parse_response respRowsNotFound) = some .notFound := by
  refine ⟨rfl, ?_⟩
  have h := ((c1_parse_response respRowsNotFound).2.2.1
    [("rows", .list [.dict [("error", .str "not_found"), ("key", .str "a")]])]
    [.dict [("error", .str "not_found"), ("key", .str "a")]]
    rfl rfl rfl).2.2
  exact h [] (.dict [("error", .str "not_found"), ("key", .str "a")]) [] rfl rfl
    (by intro p hp; cases hp) rfl

/-- Body of the counterexample response for C1: a 500 reply that is a list
whose first element carries error `conflict`.  (The status 500 makes the
legacy raise complete: the InternalServerError branch passes a truthy fixed
description, so the legacy `CouchException.__init__` never calls `.get` on
the list body.) -/
def respListConflict : RespV :=
  { code := 500,
    bodyJson := .list [.dict [("error", .str "conflict"),
      ("reason", .str "Document update conflict.")]] }

/-- Counterexample for C1 as stated: the legacy root module's response
interpreter (the cited `BlockingCouch._parse_response`) classifies a list
element with error `conflict` in a 500 response using the response's own
status (yielding InternalServerError with code 500), not 409 Conflict as
the claim's inference rule demands for every response. -/
theorem c1_parse_response_cex :
    raisedKind (parse_response_legacy respListConflict) = some .internalServerError ∧
    raisedCode (parse_response_legacy respListConflict) = some 500 ∧
    raisedKind (parse_response_legacy respListConflict) ≠ some .conflict ∧
    raisedCode (parse_response_legacy respListConflict) ≠ some 409 := by
  exact ⟨rfl, rfl, by decide, by decide⟩

theorem mapMDocsOk :
    ∀ (rows : List PyVal) (docs : List PyVal),
      List.mapM (fun r => keyOf r "doc") rows = some docs →
      List.mapM (fun row => (pyGetItem row "doc").mapError RaisedErr.py) rows =
        .ok docs := by
  intro rows
  induction rows with
  | nil =>
      intro docs h
      simp only [List.mapM_nil, pure, Option.some.injEq] at h
      subst h
      rfl
  | cons r rest ih =>
      intro docs h
      rw [List.mapM_cons] at h ⊢
      cases hk : keyOf r "doc" with
      | none => rw [hk] at h; exact Option.noConfusion h
      | some dv =>
          rw [hk] at h
          cases hrest : List.mapM (fun r => keyOf r "doc") rest with
          | none => rw [hrest] at h; exact Option.noConfusion h
          | some ds =>
              rw [hrest] at h
              simp only [Option.bind_eq_bind, Option.some_bind, pure,
                Option.some.injEq] at h
              have hget : pyGetItem r "doc" = .ok dv := by
                cases r <;> simp_all [keyOf, pyGetItem]
              rw [bindOkLeft (by rw [hget]; rfl : (pyGetItem r "doc").mapError
                RaisedErr.py = Except.ok dv)]
              rw [bindOkLeft (ih ds hrest)]
              rw [← h]
              rfl

/-- C5 (amended): for a `get_docs` reply (an object whose `rows` is a list
of row objects, with no top-level `error`): the call is all-or-nothing —
if any row carries an `error` key no document list is returned at all; the
exception raised is determined by the first erroneous row, so whenever
every erroneous row's error is `not_found` (the only row error the
`_all_docs` index produces) the whole call raises NotFound; and when no
row carries an error, the call returns exactly the `doc` field of each row
in row order. -/
theorem c5_get_docs (resp : RespV) (kvs : List (String × PyVal))
    (rows : List PyVal)
    (hbody : resp.bodyJson = .dict kvs)
    (herrF : hasKey kvs "error" = false)
    (hrows : lookupKey kvs "rows" = some (.list rows)) :
    ((∃ r ∈ rows, hasErrKey r = true) → ∀ l, get_docs_result resp ≠ .ok l) ∧
    ((∀ r ∈ rows, isObj r = true) →
     (∀ r ∈ rows, ∀ ev, keyOf r "error" = some ev → ev = .str "not_found") →
     (∃ r ∈ rows, hasErrKey r = true) →
     raisedKind (get_docs_result resp) = some .notFound) ∧
    ((∀ r ∈ rows, isObj r = true ∧ hasErrKey r = false) →
     ∀ docs, List.mapM (fun r => keyOf r "doc") rows = some docs →
     get_docs_result resp = .ok docs) := by
  have hkr : hasKey kvs "rows" = true := by simp [hasKey, hrows]
  have hp : parse_response resp =
      (scanRows resp rows >>= fun _ => Except.ok (PyVal.dict kvs)) := by
    simp [parse_response, hbody, pyContains, pyGetItem, herrF, hkr, hrows, pyIter,
      Except.mapError, Bind.bind, Except.bind]
  refine ⟨?_, ?_, ?_⟩
  · intro hex l
    obtain ⟨e, he⟩ := scanRowsErrOfExists resp rows hex
    have hparse : parse_response resp = .error e := by rw [hp, bindErrLeft he]
    simp only [get_docs_result]
    rw [bindErrLeft hparse]
    exact fun hc => Except.noConfusion hc
  · intro hobj hnf hex
    obtain ⟨pre, d, rest, hsplit, hpre, hd⟩ := firstWitnessSplit hasErrKey rows hex
    have hdmem : d ∈ rows := by
      rw [hsplit]
      exact List.mem_append_right _ (List.mem_cons_self d rest)
    cases hkd : keyOf d "error" with
    | none => rw [hasErrKey, hkd] at hd; exact Bool.noConfusion hd
    | some ev =>
        have hev : ev = .str "not_found" := hnf d hdmem ev hkd
        subst hev
        have hpre2 : ∀ p ∈ pre, isObj p = true ∧ hasErrKey p = false := by
          intro p hpmem
          refine ⟨hobj p ?_, hpre p hpmem⟩
          rw [hsplit]
          exact List.mem_append_left _ hpmem
        have hscan := scanRowsFirstErr resp pre d rest "not_found" hpre2 hkd
        rw [← hsplit] at hscan
        have hparse : parse_response resp = .error (.couch (relax_exception
            (mkHTTPError (inferredCode "not_found") (some (.str "not_found"))
              resp))) := by
          rw [hp, bindErrLeft hscan]
        simp only [get_docs_result]
        rw [bindErrLeft hparse]
        rfl
  · intro hclean docs hdocs
    have hparse : parse_response resp = .ok (.dict kvs) := by
      rw [hp, bindOkLeft (scanRowsOk resp rows hclean)]
    simp only [get_docs_result]
    rw [bindOkLeft hparse]
    rw [bindOkLeft (by rw [show pyGetItem (PyVal.dict kvs) "rows" =
      Except.ok (PyVal.list rows) by simp [pyGetItem, hrows]]; rfl :
      (pyGetItem (PyVal.dict kvs) "rows").mapError RaisedErr.py =
        Except.ok (PyVal.list rows))]
    rw [bindOkLeft (rfl : (pyIter (PyVal.list rows)).mapError RaisedErr.py =
      Except.ok rows)]
    exact mapMDocsOk rows docs hdocs

/-- The `_all_docs` reply used in the C5 counterexample: its rows contain a
row with error `not_found`, but an earlier row errs with `conflict`. -/
def respRowsMixed : RespV :=
  { code := 200,
    bodyJson := .dict [("rows", .list
      [.dict [("error", .str "conflict")],
       .dict [("error", .str "not_found")]])] }

/-- Counterexample for C5 as stated: the row set contains a row whose
`error` is `not_found`, yet `get_docs` raises Conflict (the classification
of the first erroneous row), not NotFound. -/
theorem c5_get_docs_cex :
    (PyVal.dict [("error", PyVal.str "not_found")]) ∈
      [PyVal.dict [("error", PyVal.str "conflict")],
       PyVal.dict [("error", PyVal.str "not_found")]] ∧
    hasErrKey (.dict [("error", .str "not_found")]) = true ∧
    raisedKind (get_docs_result respRowsMixed) = some .conflict ∧
    raisedKind (get_docs_result respRowsMixed) ≠ some .notFound := by
  exact ⟨List.Mem.tail _ (List.Mem.head _), rfl, rfl, by decide⟩

/-- The clean `_all_docs` reply used in the C5 witness. -/
def respRowsClean : RespV :=
  { code := 200,
    bodyJson := .dict [("total_rows", .int 2), ("rows", .list
      [.dict [("id", .str "a"), ("doc", .dict [("_id", .str "a")])],
       .dict [("id", .str "b"), ("doc", .dict [("_id", .str "b")])]])] }

/-- Witness for C5: with no erroneous row, `get_docs` returns the rows'
`doc` fields in row order; with a `not_found` row it raises NotFound. -/
theorem c5_get_docs_witness :
    get_docs_result respRowsClean =
      .ok [.dict [("_id", .str "a")], .dict [("_id", .str "b")]] ∧
    raisedKind (get_docs_result respRowsNotFound) = some .notFound := by
  constructor
  · exact (c5_get_docs respRowsClean _ _ rfl rfl rfl).2.2
      (by intro r hr; rcases hr with _ | ⟨_, hr⟩
          · exact ⟨rfl, rfl⟩
          · rcases hr with _ | ⟨_, hr⟩
            · exact ⟨rfl, rfl⟩
            · cases hr)
      _ rfl
  · exact (c5_get_docs respRowsNotFound _ _ rfl rfl rfl).2.1
      (by intro r hr; rcases hr with _ | ⟨_, hr⟩
          · rfl
          · cases hr)
      (by intro r hr ev hev; rcases hr with _ | ⟨_, hr⟩
          · cases hev; rfl
          · cases hr)
      ⟨.dict [("error", .str "not_found"), ("key", .str "a")],
        List.Mem.head _, rfl⟩

/-! ## Claims C3 and C7: view query building -/

theorem lookupKeyNoneOfNotMem {k : String} :
    ∀ {params : List (String × PyVal)}, k ∉ params.map Prod.fst →
      lookupKey params k = none := by
  intro params
  induction params with
  | nil => intro _; rfl
  | cons p rest ih =>
      intro h
      obtain ⟨k0, v0⟩ := p
      simp only [List.map_cons, List.mem_cons] at h
      push_neg at h
      have hne : k0 ≠ k := fun he => h.1 he.symm
      simp only [lookupKey, if_neg hne]
      exact ih h.2

theorem view_loop_char :
    ∀ (params : List (String × PyVal)) (bkv : List (String × PyVal))
      (bo : PyVal) (opts : List (String × String)),
      (∀ kv ∈ params, kv.1 ≠ "body") →
      (params.map Prod.fst).Nodup →
      view_loop (.dict bkv) params = .ok (bo, opts) →
      ((lookupKey params "keys" = none → bo = .dict bkv) ∧
       (∀ w, lookupKey params "keys" = some w →
           bo = .dict (assocSet bkv "keys" w)) ∧
       opts.map Prod.fst =
         (params.filter (fun kv => ¬ (kv.1 = "keys"))).map Prod.fst ∧
       (∀ k v, (k, v) ∈ params → k ≠ "keys" →
           ∃ ev, (k, ev) ∈ opts ∧ encodeViewVal k v = .ok ev)) := by
  intro params
  induction params with
  | nil =>
      intro bkv bo opts _ _ h
      simp only [view_loop, Except.ok.injEq, Prod.mk.injEq] at h
      obtain ⟨hb, ho⟩ := h
      subst hb
      subst ho
      refine ⟨fun _ => rfl, ?_, rfl, ?_⟩
      · intro w hw
        exact Option.noConfusion hw
      · intro k v hmem _
        cases hmem
  | cons p rest ih =>
      intro bkv bo opts hnb hnd h
      obtain ⟨k, v⟩ := p
      have hkb : k ≠ "body" := hnb (k, v) (List.mem_cons_self _ _)
      have hnb2 : ∀ kv ∈ rest, kv.1 ≠ "body" :=
        fun kv hkv => hnb kv (List.mem_cons_of_mem _ hkv)
      rw [List.map_cons, List.nodup_cons] at hnd
      obtain ⟨hknotin, hnd2⟩ := hnd
      by_cases hkeys : k = "keys"
      · subst hkeys
        simp only [view_loop, if_neg hkb, if_pos rfl] at h
        have hupd : pyDictUpdate (PyVal.dict bkv) "keys" v =
            .ok (.dict (assocSet bkv "keys" v)) := rfl
        rw [bindOkLeft hupd] at h
        have hrestnone : lookupKey rest "keys" = none :=
          lookupKeyNoneOfNotMem hknotin
        obtain ⟨ih1, _, ih3, ih4⟩ :=
          ih (assocSet bkv "keys" v) bo opts hnb2 hnd2 h
        have hbo : bo = .dict (assocSet bkv "keys" v) := ih1 hrestnone
        refine ⟨?_, ?_, ?_, ?_⟩
        · intro hw
          simp [lookupKey] at hw
        · intro w hw
          simp only [lookupKey, if_true] at hw
          cases hw
          exact hbo
        · rw [ih3]
          simp
        · intro k0 v0 hmem hk0
          rcases List.mem_cons.mp hmem with heq | htl
          · cases heq; exact absurd rfl hk0
          · exact ih4 k0 v0 htl hk0
      · simp only [view_loop, if_neg hkb, if_neg hkeys] at h
        obtain ⟨ev0, henc, h2⟩ := exceptBindOkCases h
        obtain ⟨br0, hloop, h3⟩ := exceptBindOkCases h2
        simp only [Except.ok.injEq, Prod.mk.injEq] at h3
        obtain ⟨hbo, hopts⟩ := h3
        obtain ⟨ih1, ih2, ih3, ih4⟩ :=
          ih bkv br0.1 br0.2 hnb2 hnd2 (by rw [hloop])
        refine ⟨?_, ?_, ?_, ?_⟩
        · intro hw
          simp only [lookupKey, if_neg hkeys] at hw
          rw [← hbo]
          exact ih1 hw
        · intro w hw
          simp only [lookupKey, if_neg hkeys] at hw
          rw [← hbo]
          exact ih2 w hw
        · rw [← hopts]
          simp [List.filter_cons, hkeys, ih3]
        · intro k0 v0 hmem hk0
          rcases List.mem_cons.mp hmem with heq | htl
          · cases heq
            exact ⟨ev0, by rw [← hopts]; exact List.mem_cons_self _ _, henc⟩
          · obtain ⟨ev, hmemo, he⟩ := ih4 k0 v0 htl hk0
            exact ⟨ev, by rw [← hopts]; exact List.mem_cons_of_mem _ hmemo, he⟩

theorem view_loop_legacy_char :
    ∀ (params : List (String × PyVal)) (bo : Option String)
      (opts : List (String × String)),
      (params.map Prod.fst).Nodup →
      view_loop_legacy params = .ok (bo, opts) →
      ((lookupKey params "keys" = none → bo = none) ∧
       (∀ w, lookupKey params "keys" = some w →
           ∃ bs, bo = some bs ∧ tornado_json_encode (.dict [("keys", w)]) = .ok bs) ∧
       opts.map Prod.fst =
         (params.filter (fun kv => ¬ (kv.1 = "keys"))).map Prod.fst ∧
       (∀ k v, (k, v) ∈ params → k ≠ "keys" →
           ∃ ev, (k, ev) ∈ opts ∧ (tornado_json_encode v).map url_escape = .ok ev)) := by
  intro params
  induction params with
  | nil =>
      intro bo opts _ h
      simp only [view_loop_legacy, Except.ok.injEq, Prod.mk.injEq] at h
      obtain ⟨hb, ho⟩ := h
      subst hb
      subst ho
      refine ⟨fun _ => rfl, ?_, rfl, ?_⟩
      · intro w hw
        exact Option.noConfusion hw
      · intro k v hmem _
        cases hmem
  | cons p rest ih =>
      intro bo opts hnd h
      obtain ⟨k, v⟩ := p
      rw [List.map_cons, List.nodup_cons] at hnd
      obtain ⟨hknotin, hnd2⟩ := hnd
      by_cases hkeys : k = "keys"
      · subst hkeys
        simp only [view_loop_legacy, if_pos rfl] at h
        obtain ⟨b0, hb0, h2⟩ := exceptBindOkCases h
        obtain ⟨br0, hloop, h3⟩ := exceptBindOkCases h2
        simp only [Except.ok.injEq, Prod.mk.injEq] at h3
        obtain ⟨hbo, hopts⟩ := h3
        have hrestnone : lookupKey rest "keys" = none :=
          lookupKeyNoneOfNotMem hknotin
        obtain ⟨ih1, _, ih3, ih4⟩ := ih br0.1 br0.2 hnd2 (by rw [hloop])
        have hb1 : br0.1 = none := ih1 hrestnone
        refine ⟨?_, ?_, ?_, ?_⟩
        · intro hw
          simp [lookupKey] at hw
        · intro w hw
          simp only [lookupKey, if_true] at hw
          cases hw
          refine ⟨b0, ?_, hb0⟩
          rw [← hbo, hb1]
          rfl
        · rw [← hopts, ih3]
          simp
        · intro k0 v0 hmem hk0
          rcases List.mem_cons.mp hmem with heq | htl
          · cases heq; exact absurd rfl hk0
          · obtain ⟨ev, hmemo, he⟩ := ih4 k0 v0 htl hk0
            exact ⟨ev, by rw [← hopts]; exact hmemo, he⟩
      · simp only [view_loop_legacy, if_neg hkeys] at h
        obtain ⟨j0, hj, h2⟩ := exceptBindOkCases h
        obtain ⟨br0, hloop, h3⟩ := exceptBindOkCases h2
        simp only [Except.ok.injEq, Prod.mk.injEq] at h3
        obtain ⟨hbo, hopts⟩ := h3
        obtain ⟨ih1, ih2, ih3, ih4⟩ := ih br0.1 br0.2 hnd2 (by rw [hloop])
        refine ⟨?_, ?_, ?_, ?_⟩
        · intro hw
          simp only [lookupKey, if_neg hkeys] at hw
          rw [← hbo]
          exact ih1 hw
        · intro w hw
          simp only [lookupKey, if_neg hkeys] at hw
          obtain ⟨bs, hbs, he⟩ := ih2 w hw
          exact ⟨bs, by rw [← hbo]; exact hbs, he⟩
        · rw [← hopts]
          simp [List.filter_cons, hkeys, ih3]
        · intro k0 v0 hmem hk0
          rcases List.mem_cons.mp hmem with heq | htl
          · cases heq
            refine ⟨url_escape j0, by rw [← hopts]; exact List.mem_cons_self _ _, ?_⟩
            rw [hj]
            rfl
          · obtain ⟨ev, hmemo, he⟩ := ih4 k0 v0 htl hk0
            exact ⟨ev, by rw [← hopts]; exact List.mem_cons_of_mem _ hmemo, he⟩

theorem mapErrorOkCases {ε ε2 α : Type} {m : Except ε α} {f : ε → ε2} {a : α}
    (h : m.mapError f = .ok a) : m = .ok a := by
  cases m with
  | error x => simp [Except.mapError] at h
  | ok b => simpa [Except.mapError] using h

theorem lookupKeyNoneForall {k : String} :
    ∀ {params : List (String × PyVal)}, lookupKey params k = none →
      ∀ kv ∈ params, ¬ (kv.1 = k) := by
  intro params
  induction params with
  | nil => intro _ kv hkv; cases hkv
  | cons p rest ih =>
      intro h kv hkv
      obtain ⟨k0, v0⟩ := p
      by_cases he : k0 = k
      · subst he
        simp [lookupKey] at h
      · simp only [lookupKey, if_neg he] at h
        rcases List.mem_cons.mp hkv with heq | htl
        · subst heq; exact he
        · exact ih h kv htl

theorem view_query_ok_destruct (c : Client) (path : String)
    (params : List (String × PyVal)) (req : HTTPReq)
    (hnb : ∀ kv ∈ params, kv.1 ≠ "body")
    (h : view_query c path params = .ok req) :
    ∃ bo opts, view_loop (.dict []) params = .ok (bo, opts) ∧ req.query = opts ∧
      ((pyTruthy bo = false ∧ req.method = .GET ∧ req.body = none) ∨
       (pyTruthy bo = true ∧ req.method = .POST ∧
        ∃ bs, json_encode bo = .ok bs ∧ req.body = some bs)) := by
  have hbodyNone : lookupKey params "body" = none := by
    apply lookupKeyNoneOfNotMem
    intro hmem
    obtain ⟨kv, hkv, hfst⟩ := List.mem_map.mp hmem
    exact hnb kv hkv hfst
  simp only [view_query, hbodyNone, Option.getD] at h
  obtain ⟨br, hbr, h2⟩ := exceptBindOkCases h
  have hloop : view_loop (.dict []) params = .ok br := mapErrorOkCases hbr
  refine ⟨br.1, br.2, by rw [hloop], ?_⟩
  cases ht : pyTruthy br.1 with
  | false =>
      rw [if_neg (by rw [ht]; exact Bool.false_ne_true)] at h2
      obtain ⟨u, _, h3⟩ := exceptBindOkCases h2
      have hreq := Except.ok.inj h3
      rw [← hreq]
      exact ⟨rfl, Or.inl ⟨rfl, rfl, rfl⟩⟩
  | true =>
      rw [if_pos (by rw [ht])] at h2
      obtain ⟨bs, hbs, h3⟩ := exceptBindOkCases h2
      obtain ⟨u, _, h4⟩ := exceptBindOkCases h3
      have hreq := Except.ok.inj h4
      rw [← hreq]
      exact ⟨rfl, Or.inr ⟨rfl, rfl, bs, mapErrorOkCases hbs, rfl⟩⟩

theorem view_query_legacy_ok_destruct (c : Client) (path : String)
    (params : List (String × PyVal)) (req : HTTPReq)
    (h : view_query_legacy c path params = .ok req) :
    ∃ bo opts, view_loop_legacy params = .ok (bo, opts) ∧ req.query = opts ∧
      ((bo = none ∧ req.method = .GET ∧ req.body = none) ∨
       (∃ bs, bo = some bs ∧ req.method = .POST ∧ req.body = some bs)) := by
  simp only [view_query_legacy] at h
  obtain ⟨br, hbr, h2⟩ := exceptBindOkCases h
  have hloop : view_loop_legacy params = .ok br := mapErrorOkCases hbr
  refine ⟨br.1, br.2, by rw [hloop], ?_⟩
  cases hb : br.1 with
  | none =>
      rw [hb] at h2
      have hreq := Except.ok.inj h2
      rw [← hreq]
      exact ⟨rfl, Or.inl ⟨rfl, rfl, rfl⟩⟩
  | some bs =>
      rw [hb] at h2
      have hreq := Except.ok.inj h2
      rw [← hreq]
      exact ⟨rfl, Or.inr ⟨bs, rfl, rfl, rfl⟩⟩

theorem optsKeyFree {opts : List (String × String)}
    {params : List (String × PyVal)}
    (h3 : opts.map Prod.fst =
      (params.filter (fun kv => ¬ (kv.1 = "keys"))).map Prod.fst) :
    ∀ q ∈ opts, q.1 ≠ "keys" := by
  intro q hq
  have : q.1 ∈ opts.map Prod.fst := List.mem_map_of_mem Prod.fst hq
  rw [h3] at this
  obtain ⟨kv, hkv, hfst⟩ := List.mem_map.mp this
  obtain ⟨_, hdec⟩ := List.mem_filter.mp hkv
  rw [← hfst]
  simpa using hdec

theorem optsAllParams {opts : List (String × String)}
    {params : List (String × PyVal)}
    (hnone : lookupKey params "keys" = none)
    (h3 : opts.map Prod.fst =
      (params.filter (fun kv => ¬ (kv.1 = "keys"))).map Prod.fst) :
    opts.map Prod.fst = params.map Prod.fst := by
  rw [h3]
  congr 1
  apply List.filter_eq_self.mpr
  intro kv hkv
  simpa using lookupKeyNoneForall hnone kv hkv

/-- C3: for every invocation of `view` or `view_all_docs` (in either
module) with view-query keyword parameters (dict-unique keywords, and not
the internal `body` keyword reserved for `temp_view`): when a `keys`
parameter is supplied, the produced request is a POST whose JSON body is
the encoding of `{"keys": ...}` and whose query string carries no `keys`
parameter; when no `keys` parameter is supplied, the request is a GET with
no body carrying all parameters in the query string — so POST-vs-GET
depends solely on whether `keys` was supplied. -/
theorem c3_view_post_iff_keys (c : Client) (design_doc_name view_name : String)
    (params : List (String × PyVal))
    (hnb : ∀ kv ∈ params, kv.1 ≠ "body")
    (hnd : (params.map Prod.fst).Nodup) :
    view c design_doc_name view_name params =
      view_query c (c.db_name ++ "/_design/" ++ design_doc_name ++ "/_view/" ++
        view_name) params ∧
    view_all_docs c params = view_query c (c.db_name ++ "/_all_docs") params ∧
    view_legacy c design_doc_name view_name params =
      view_query_legacy c ("/" ++ c.db_name ++ "/_design/" ++ design_doc_name ++
        "/_view/" ++ view_name) params ∧
    view_all_docs_legacy c params =
      view_query_legacy c ("/" ++ c.db_name ++ "/_all_docs") params ∧
    (∀ path req, view_query c path params = .ok req →
      ((lookupKey params "keys" = none →
          req.method = .GET ∧ req.body = none ∧
          req.query.map Prod.fst = params.map Prod.fst) ∧
       (∀ w, lookupKey params "keys" = some w →
          req.method = .POST ∧
          req.body = (json_encode (.dict [("keys", w)])).toOption ∧
          ∀ q ∈ req.query, q.1 ≠ "keys"))) ∧
    (∀ path req, view_query_legacy c path params = .ok req →
      ((lookupKey params "keys" = none →
          req.method = .GET ∧ req.body = none ∧
          req.query.map Prod.fst = params.map Prod.fst) ∧
       (∀ w, lookupKey params "keys" = some w →
          req.method = .POST ∧
          req.body = (tornado_json_encode (.dict [("keys", w)])).toOption ∧
          ∀ q ∈ req.query, q.1 ≠ "keys"))) := by
  refine ⟨rfl, rfl, rfl, rfl, ?_, ?_⟩
  · intro path req h
    obtain ⟨bo, opts, hloop, hquery, hcase⟩ :=
      view_query_ok_destruct c path params req hnb h
    obtain ⟨ch1, ch2, ch3, _⟩ := view_loop_char params [] bo opts hnb hnd hloop
    constructor
    · intro hnone
      have hbo : bo = .dict [] := ch1 hnone
      rcases hcase with ⟨_, hm, hb⟩ | ⟨htr, _, _⟩
      · exact ⟨hm, hb, by rw [hquery]; exact optsAllParams hnone ch3⟩
      · rw [hbo] at htr
        exact absurd htr (by decide)
    · intro w hw
      have hbo : bo = .dict [("keys", w)] := ch2 w hw
      rcases hcase with ⟨hf, _, _⟩ | ⟨_, hm, bs, hbs, hb⟩
      · rw [hbo] at hf
        simp [pyTruthy] at hf
      · refine ⟨hm, ?_, by rw [hquery]; exact optsKeyFree ch3⟩
        rw [hb, ← hbo, hbs]
        rfl
  · intro path req h
    obtain ⟨bo, opts, hloop, hquery, hcase⟩ :=
      view_query_legacy_ok_destruct c path params req h
    obtain ⟨ch1, ch2, ch3, _⟩ := view_loop_legacy_char params bo opts hnd hloop
    constructor
    · intro hnone
      have hbo : bo = none := ch1 hnone
      rcases hcase with ⟨_, hm, hb⟩ | ⟨bs, hbs, _, _⟩
      · exact ⟨hm, hb, by rw [hquery]; exact optsAllParams hnone ch3⟩
      · rw [hbo] at hbs
        exact Option.noConfusion hbs
    · intro w hw
      obtain ⟨bs0, hbs0, henc⟩ := ch2 w hw
      rcases hcase with ⟨hb0, _, _⟩ | ⟨bs, hbs, hm, hb⟩
      · rw [hbs0] at hb0
        exact Option.noConfusion hb0
      · refine ⟨hm, ?_, by rw [hquery]; exact optsKeyFree ch3⟩
        rw [hb]
        rw [hbs0] at hbs
        have : bs0 = bs := Option.some.inj hbs
        rw [← this, henc]
        rfl

/-- A concrete open client used in witnesses and counterexamples. -/
def cDemo : Client :=
  { db_name := "testdb", couch_url := "http://127.0.0.1:5984/", closed := false }

/-- The POST request produced in the C3 witness. -/
def reqViewKeys : HTTPReq :=
  { method := .POST, path := "testdb/_design/d/_view/v",
    query := [("limit", "1")], body := some "\x7b\"keys\": [\"a\"]\x7d",
    headers := [("Accept", some "application/json"),
                ("Content-Type", some "application/json")] }

/-- The GET request produced in the C3 witness. -/
def reqViewNoKeys : HTTPReq :=
  { method := .GET, path := "testdb/_all_docs", query := [("limit", "1")],
    body := none, headers := [("Accept", some "application/json")] }

/-- Witness for C3: with `keys` supplied the request is a POST with the
keys in the JSON body and no `keys` query parameter; without `keys` it is
a GET with no body carrying the parameters. -/
theorem c3_view_post_iff_keys_witness :
    (∃ req, view cDemo "d" "v" [("keys", .list [.str "a"]), ("limit", .int 1)]
      = .ok req ∧ req.method = .POST ∧
      req.body = some "\x7b\"keys\": [\"a\"]\x7d" ∧
      req.query.map Prod.fst = ["limit"]) ∧
    (∃ req, view_all_docs cDemo [("limit", .int 1)] = .ok req ∧
      req.method = .GET ∧ req.body = none ∧
      req.query.map Prod.fst = ["limit"]) := by
  constructor
  · refine ⟨reqViewKeys, ?_, rfl, rfl, rfl⟩
    have h := (c3_view_post_iff_keys cDemo "d" "v"
      [("keys", .list [.str "a"]), ("limit", .int 1)]
      (by intro kv hkv
          rcases hkv with _ | ⟨_, hkv⟩
          · decide
          · rcases hkv with _ | ⟨_, hkv⟩
            · decide
            · cases hkv)
      (by decide)).1
    rw [h]
    rfl
  · refine ⟨reqViewNoKeys, ?_, rfl, rfl, rfl⟩
    have h := (c3_view_post_iff_keys cDemo "d" "v" [("limit", .int 1)]
      (by intro kv hkv
          rcases hkv with _ | ⟨_, hkv⟩
          · decide
          · cases hkv)
      (by decide)).2.1
    rw [h]
    rfl

/-- C7 (amended): in the packaged module, the value placed in the query
string for every view parameter other than `keys` and the docid
tie-breakers is the URL-escaping of the JSON encoding of the caller's
value (the string `abc` becomes `%22abc%22`), while `startkey_docid` and
`endkey_docid` are URL-escaped as raw strings; and every query option of a
produced view request is encoded this way.  (The legacy root module has no
docid exemption: it JSON-encodes the docid tie-breakers too, see the
counterexample.) -/
theorem c7_view_param_encoding :
    (∀ k v, ¬ (k = "startkey_docid" ∨ k = "endkey_docid") →
        encodeViewVal k v = (json_encode v).map url_escape) ∧
    (∀ k v, (k = "startkey_docid" ∨ k = "endkey_docid") →
        encodeViewVal k v = url_escape_py v) ∧
    (json_encode (.str "abc")).map url_escape = .ok "%22abc%22" ∧
    url_escape "abc" = "abc" ∧
    (∀ c path params req k v,
      (∀ kv ∈ params, kv.1 ≠ "body") → (params.map Prod.fst).Nodup →
      view_query c path params = .ok req → (k, v) ∈ params → k ≠ "keys" →
      ∃ ev, (k, ev) ∈ req.query ∧ encodeViewVal k v = .ok ev) := by
  refine ⟨?_, ?_, rfl, rfl, ?_⟩
  · intro k v hk
    simp [encodeViewVal, hk]
  · intro k v hk
    simp [encodeViewVal, hk]
  · intro c path params req k v hnb hnd h hmem hk
    obtain ⟨bo, opts, hloop, hquery, _⟩ :=
      view_query_ok_destruct c path params req hnb h
    obtain ⟨_, _, _, ch4⟩ := view_loop_char params [] bo opts hnb hnd hloop
    obtain ⟨ev, hmemo, he⟩ := ch4 k v hmem hk
    exact ⟨ev, by rw [hquery]; exact hmemo, he⟩

/-- Witness for C7: a `key` parameter is JSON-encoded then URL-escaped
(`abc` becomes `%22abc%22`), a `startkey_docid` parameter is URL-escaped
raw. -/
theorem c7_view_param_encoding_witness :
    encodeViewVal "key" (.str "abc") = .ok "%22abc%22" ∧
    encodeViewVal "startkey_docid" (.str "abc") = .ok "abc" := by
  constructor
  · rw [c7_view_param_encoding.1 "key" (.str "abc") (by decide)]
    exact c7_view_param_encoding.2.2.1
  · rw [c7_view_param_encoding.2.1 "startkey_docid" (.str "abc") (Or.inl rfl)]
    rw [show url_escape_py (.str "abc") = .ok (url_escape "abc") from rfl]
    rw [c7_view_param_encoding.2.2.2.1]

/-- Counterexample for C7 as stated: the legacy root module's `_view` (the
cited `BlockingCouch._view`) JSON-encodes the docid tie-breakers too — a
`startkey_docid` of `abc` is placed in the query string as `%22abc%22`,
not as the raw `abc` the claim demands. -/
theorem c7_view_param_encoding_cex :
    (view_legacy cDemo "d" "v" [("startkey_docid", .str "abc")]).map
      (fun r => r.query) = .ok [("startkey_docid", "%22abc%22")] ∧
    "%22abc%22" ≠ url_escape "abc" := by
  exact ⟨rfl, by decide⟩

/-! ## Claim C4: save_doc -/

/-- The method of the request built by an operation, if one was built
(a decidable projection for counterexamples and witnesses). -/
def reqMethodOf : Except RaisedErr HTTPReq → Option Method
  | .ok r => some r.method
  | _ => none

/-- The path of the request built by an operation, if one was built. -/
def reqPathOf : Except RaisedErr HTTPReq → Option String
  | .ok r => some r.path
  | _ => none

/-- C4 (amended): in the packaged module, `save_doc` issues a PUT to
`{db}/{url-escaped id}` exactly when the document carries an `_id` key and
a POST to `{db}` otherwise, the body being the JSON encoding of the
document.  (The legacy root module instead PUTs only when the document
carries both `_id` and `_rev`, and POSTs to `/{db}` otherwise — see the
counterexample.) -/
theorem c4_save_doc (c : Client) (doc : List (String × PyVal)) :
    (∀ req, save_doc c doc = .ok req →
      ((hasKey doc "_id" = true →
          req.method = .PUT ∧
          (∀ idv, lookupKey doc "_id" = some idv →
            ∃ s, url_escape_py idv = .ok s ∧ req.path = c.db_name ++ "/" ++ s) ∧
          req.body = (json_encode (.dict doc)).toOption) ∧
       (hasKey doc "_id" = false →
          req.method = .POST ∧ req.path = c.db_name ∧
          req.body = (json_encode (.dict doc)).toOption))) ∧
    (∀ req, save_doc_legacy c doc = .ok req →
      (((hasKey doc "_id" = true ∧ hasKey doc "_rev" = true) →
          req.method = .PUT ∧
          (∀ idv, lookupKey doc "_id" = some idv →
            ∃ s, url_escape_py idv = .ok s ∧
              req.path = "/" ++ c.db_name ++ "/" ++ s)) ∧
       (¬ (hasKey doc "_id" = true ∧ hasKey doc "_rev" = true) →
          req.method = .POST ∧ req.path = "/" ++ c.db_name) ∧
       req.body = (tornado_json_encode (.dict doc)).toOption)) := by
  constructor
  · intro req h
    simp only [save_doc] at h
    obtain ⟨body0, hb, h2⟩ := exceptBindOkCases h
    have hbody : json_encode (.dict doc) = .ok body0 := mapErrorOkCases hb
    constructor
    · intro hid
      rw [if_pos hid] at h2
      obtain ⟨idv0, hg, h3⟩ := exceptBindOkCases h2
      have hgi : pyGetItem (.dict doc) "_id" = .ok idv0 := mapErrorOkCases hg
      have hlook : lookupKey doc "_id" = some idv0 := by
        simp only [pyGetItem] at hgi
        cases hl : lookupKey doc "_id" with
        | none => rw [hl] at hgi; exact Except.noConfusion hgi
        | some r => rw [hl] at hgi; rw [Except.ok.inj hgi]
      obtain ⟨s0, he, h4⟩ := exceptBindOkCases h3
      have hesc : url_escape_py idv0 = .ok s0 := mapErrorOkCases he
      simp only [http_put, test_closed] at h4
      obtain ⟨u, _, h5⟩ := exceptBindOkCases h4
      have hreq := Except.ok.inj h5
      rw [← hreq]
      refine ⟨rfl, ?_, by rw [hbody]; rfl⟩
      intro idv hidv
      rw [hlook] at hidv
      have : idv0 = idv := Option.some.inj hidv
      subst this
      exact ⟨s0, hesc, rfl⟩
    · intro hid
      rw [if_neg (by rw [hid]; exact Bool.false_ne_true)] at h2
      simp only [http_post, test_closed] at h2
      obtain ⟨u, _, h3⟩ := exceptBindOkCases h2
      have hreq := Except.ok.inj h3
      rw [← hreq]
      exact ⟨rfl, rfl, by rw [hbody]; rfl⟩
  · intro req h
    simp only [save_doc_legacy] at h
    obtain ⟨body0, hb, h2⟩ := exceptBindOkCases h
    have hbody : tornado_json_encode (.dict doc) = .ok body0 := mapErrorOkCases hb
    by_cases hid : hasKey doc "_id" = true ∧ hasKey doc "_rev" = true
    · rw [if_pos hid] at h2
      obtain ⟨idv0, hg, h3⟩ := exceptBindOkCases h2
      have hgi : pyGetItem (.dict doc) "_id" = .ok idv0 := mapErrorOkCases hg
      have hlook : lookupKey doc "_id" = some idv0 := by
        simp only [pyGetItem] at hgi
        cases hl : lookupKey doc "_id" with
        | none => rw [hl] at hgi; exact Except.noConfusion hgi
        | some r => rw [hl] at hgi; rw [Except.ok.inj hgi]
      obtain ⟨s0, he, h4⟩ := exceptBindOkCases h3
      have hesc : url_escape_py idv0 = .ok s0 := mapErrorOkCases he
      have hreq := Except.ok.inj h4
      rw [← hreq]
      refine ⟨?_, fun hc => absurd hid hc, by rw [hbody]; rfl⟩
      intro _
      refine ⟨rfl, ?_⟩
      intro idv hidv
      rw [hlook] at hidv
      have : idv0 = idv := Option.some.inj hidv
      subst this
      exact ⟨s0, hesc, rfl⟩
    · rw [if_neg hid] at h2
      have hreq := Except.ok.inj h2
      rw [← hreq]
      exact ⟨fun hc => absurd hc hid, fun _ => ⟨rfl, rfl⟩, by rw [hbody]; rfl⟩

/-- Counterexample for C4 as stated: in the legacy root module (the cited
`BlockingCouch.save_doc`), a document carrying `_id` but no `_rev` is sent
with a POST to `/{db}`, not the PUT to `{db}/{id}` the claim demands. -/
theorem c4_save_doc_cex :
    hasKey [("_id", PyVal.str "a")] "_id" = true ∧
    reqMethodOf (save_doc_legacy cDemo [("_id", .str "a")]) = some .POST ∧
    reqMethodOf (save_doc_legacy cDemo [("_id", .str "a")]) ≠ some .PUT ∧
    reqPathOf (save_doc_legacy cDemo [("_id", .str "a")]) = some "/testdb" := by
  exact ⟨rfl, rfl, by decide, rfl⟩

/-- The PUT request built by the packaged `save_doc` in the witness. -/
def reqSaveW : HTTPReq :=
  { method := .PUT, path := "testdb/a", query := [],
    body := some "\x7b\"_id\": \"a\"\x7d",
    headers := [("Content-Type", some "application/json"),
                ("Accept", some "application/json")] }

/-- The POST request built by the packaged `save_doc` in the witness. -/
def reqSaveW2 : HTTPReq :=
  { method := .POST, path := "testdb", query := [],
    body := some "\x7b\"msg\": \"hi\"\x7d",
    headers := [("Accept", some "application/json"),
                ("Content-Type", some "application/json")] }

/-- Witness for C4: a document with `_id` is PUT at `testdb/a`, one
without `_id` is POSTed to `testdb`. -/
theorem c4_save_doc_witness :
    hasKey [("_id", PyVal.str "a")] "_id" = true ∧
    reqSaveW.method = .PUT ∧ reqSaveW.path = "testdb/a" ∧
    save_doc cDemo [("_id", .str "a")] = .ok reqSaveW ∧
    hasKey [("msg", PyVal.str "hi")] "_id" = false ∧
    reqSaveW2.method = .POST ∧ reqSaveW2.path = "testdb" ∧
    save_doc cDemo [("msg", .str "hi")] = .ok reqSaveW2 := by
  have h1 := ((c4_save_doc cDemo [("_id", .str "a")]).1 reqSaveW rfl).1 rfl
  have h2 := ((c4_save_doc cDemo [("msg", .str "hi")]).1 reqSaveW2 rfl).2 rfl
  refine ⟨rfl, h1.1, ?_, rfl, rfl, h2.1, h2.2.1, rfl⟩
  obtain ⟨s, hs, hp⟩ := h1.2.1 (.str "a") rfl
  have hs2 : "a" = s := Except.ok.inj hs
  rw [hp, ← hs2]
  rfl

/-! ## Claim C6: operations after close -/

/-- A concrete closed client. -/
def cClosed : Client :=
  { db_name := "testdb", couch_url := "http://127.0.0.1:5984/", closed := true }

/-- C6 (code bug): every operation invoked after `close()` does fail
immediately, before any HTTP request is constructed — but not with the
intended `'Database connection is closed.'` CouchException: constructing
`CouchException('Database connection is closed.')` evaluates
`HTTPError.code` on the plain string argument, so what is actually raised
is `AttributeError` (the closed message never reaches the caller). -/
theorem c6_closed_raises_attribute_error :
    closedAttrError = .attributeError "str object has no attribute code" ∧
    list_dbs cClosed = .error (.py closedAttrError) ∧
    get_doc cClosed "docid" = .error (.py closedAttrError) ∧
    save_doc cClosed [("_id", .str "a")] = .error (.py closedAttrError) ∧
    view_all_docs cClosed [] = .error (.py closedAttrError) ∧
    get_docs_request cClosed [.str "a"] = .error (.py closedAttrError) ∧
    http_post cClosed "p" [] "body" = .error (.py closedAttrError) ∧
    http_put cClosed "p" [] "body" [] = .error (.py closedAttrError) ∧
    http_delete cClosed "p" [] = .error (.py closedAttrError) ∧
    http_head cClosed "p" = .error (.py closedAttrError) := by
  exact ⟨rfl, rfl, rfl, rfl, rfl, rfl, rfl, rfl, rfl, rfl⟩

/-! ## Claim C9: get_attachment validation -/

/-- C9 (code bug): in the legacy `AsyncCouch.get_attachment` (root module,
lines 526-547), a document with an `_id` but no `_attachments` and no
explicit mimetype makes the method deliver the missing-data ValueError to
the callback — and then, because the branch does not return, fall through
and dispatch a GET for the attachment anyway, with an `Accept` header of
`None`.  The local-validation failure is not kept away from the
transport. -/
theorem c9_get_attachment_dispatches_after_error :
    get_attachment_legacy_async cDemo [("_id", .str "a")] "att" none =
      { cbErrs := [.valueError
          "No attachments in doc, cannot get content type of attachment"],
        outcome := .ok (some
          { method := .GET, path := "/testdb/a/att", query := [],
            body := none, headers := [("Accept", none)] }) } := rfl

/-! ## Claim C10: the configured state survives every call

`Preserves h0 h` says the heap `h` agrees with `h0` on everything `h0` had
already allocated; the deep copy makes every mutation of an `_http_*` call
land on references allocated after the call started, so the dict behind
the client's `request_args` reference resolves identically before and
after. -/

/-- Heap evolution that leaves all previously allocated dicts intact. -/
def Preserves (h0 h : Heap) : Prop :=
  h0.nextA ≤ h.nextA ∧ h0.nextH ≤ h.nextH ∧
  (∀ r, r < h0.nextA → getArgs h r = getArgs h0 r) ∧
  (∀ r, r < h0.nextH → getHdrs h r = getHdrs h0 r)

theorem preservesRefl (h : Heap) : Preserves h h :=
  ⟨le_refl _, le_refl _, fun _ _ => rfl, fun _ _ => rfl⟩

theorem preservesTrans {h0 h1 h2 : Heap}
    (p : Preserves h0 h1) (q : Preserves h1 h2) : Preserves h0 h2 := by
  obtain ⟨pa, ph, pga, pgh⟩ := p
  obtain ⟨qa, qh, qga, qgh⟩ := q
  refine ⟨le_trans pa qa, le_trans ph qh, ?_, ?_⟩
  · intro r hr
    rw [qga r (lt_of_lt_of_le hr pa), pga r hr]
  · intro r hr
    rw [qgh r (lt_of_lt_of_le hr ph), pgh r hr]

theorem lookupRefPrependNe {α : Type} (l : List (Nat × α)) (n r : Nat) (d : α)
    (hne : n ≠ r) : lookupRef ((n, d) :: l) r = lookupRef l r := by
  simp [lookupRef, hne]

theorem lookupRefMapSet {α : Type} (r r2 : Nat) (d : α) (hne : r2 ≠ r) :
    ∀ (l : List (Nat × α)),
      lookupRef (l.map (fun e => if e.1 = r then (e.1, d) else e)) r2 =
        lookupRef l r2 := by
  intro l
  induction l with
  | nil => rfl
  | cons e t ih =>
      obtain ⟨n, d0⟩ := e
      show lookupRef ((if n = r then (n, d) else (n, d0)) ::
        t.map (fun e => if e.1 = r then (e.1, d) else e)) r2 =
        lookupRef ((n, d0) :: t) r2
      by_cases hn : n = r
      · rw [if_pos hn]
        have hnr2 : ¬ n = r2 := fun he => hne (he.symm.trans hn)
        show (if n = r2 then some d else _) = (if n = r2 then some d0 else _)
        rw [if_neg hnr2, if_neg hnr2]
        exact ih
      · rw [if_neg hn]
        show (if n = r2 then some d0 else _) = (if n = r2 then some d0 else _)
        by_cases hn2 : n = r2
        · rw [if_pos hn2, if_pos hn2]
        · rw [if_neg hn2, if_neg hn2]
          exact ih

theorem allocHdrPreservesFrom {h0 h : Heap} (d : List (String × Option String))
    (hp : Preserves h0 h) : Preserves h0 (allocHdr h d).1 := by
  obtain ⟨pa, ph, pga, pgh⟩ := hp
  refine ⟨pa, le_trans ph (Nat.le_succ _), pga, ?_⟩
  intro r hr
  show ((lookupRef ((h.nextH, d) :: h.hdrs) r).getD []) = _
  rw [lookupRefPrependNe _ _ _ _ (Nat.ne_of_gt (lt_of_lt_of_le hr ph))]
  exact pgh r hr

theorem allocArgsPreservesFrom {h0 h : Heap} (d : List (String × ArgVal))
    (hp : Preserves h0 h) : Preserves h0 (allocArgs h d).1 := by
  obtain ⟨pa, ph, pga, pgh⟩ := hp
  refine ⟨le_trans pa (Nat.le_succ _), ph, ?_, pgh⟩
  intro r hr
  show ((lookupRef ((h.nextA, d) :: h.args) r).getD []) = _
  rw [lookupRefPrependNe _ _ _ _ (Nat.ne_of_gt (lt_of_lt_of_le hr pa))]
  exact pga r hr

theorem setHdrsAtPreservesFrom {h0 h : Heap} {r : Nat}
    (d : List (String × Option String)) (hle : h0.nextH ≤ r)
    (hp : Preserves h0 h) : Preserves h0 (setHdrsAt h r d) := by
  obtain ⟨pa, ph, pga, pgh⟩ := hp
  refine ⟨pa, ph, pga, ?_⟩
  intro r2 hr2
  show ((lookupRef (h.hdrs.map (fun e => if e.1 = r then (e.1, d) else e)) r2).getD [])
    = _
  rw [lookupRefMapSet r r2 d (Nat.ne_of_lt (lt_of_lt_of_le hr2 hle))]
  exact pgh r2 hr2

theorem setArgsAtPreservesFrom {h0 h : Heap} {r : Nat}
    (d : List (String × ArgVal)) (hle : h0.nextA ≤ r)
    (hp : Preserves h0 h) : Preserves h0 (setArgsAt h r d) := by
  obtain ⟨pa, ph, pga, pgh⟩ := hp
  refine ⟨pa, ph, ?_, pgh⟩
  intro r2 hr2
  show ((lookupRef (h.args.map (fun e => if e.1 = r then (e.1, d) else e)) r2).getD [])
    = _
  rw [lookupRefMapSet r r2 d (Nat.ne_of_lt (lt_of_lt_of_le hr2 hle))]
  exact pga r2 hr2

theorem updateHdrsAtPreservesFrom {h0 h : Heap} {r : Nat}
    (new : List (String × Option String)) (hle : h0.nextH ≤ r)
    (hp : Preserves h0 h) : Preserves h0 (updateHdrsAt h r new) :=
  setHdrsAtPreservesFrom _ hle hp

theorem updateArgsAtPreservesFrom {h0 h : Heap} {r : Nat}
    (new : List (String × ArgVal)) (hle : h0.nextA ≤ r)
    (hp : Preserves h0 h) : Preserves h0 (updateArgsAt h r new) :=
  setArgsAtPreservesFrom _ hle hp

theorem copyArgEntriesSpec :
    ∀ (entries : List (String × ArgVal)) (h : Heap),
      Preserves h (copyArgEntries h entries).1 ∧
      (copyArgEntries h entries).1.nextA = h.nextA ∧
      (∀ k hr, (k, ArgVal.hdrRef hr) ∈ (copyArgEntries h entries).2 →
        h.nextH ≤ hr) := by
  intro entries
  induction entries with
  | nil =>
      intro h
      exact ⟨preservesRefl h, rfl, fun k hr hmem => absurd hmem (List.not_mem_nil _)⟩
  | cons e rest ih =>
      intro h
      obtain ⟨k0, av⟩ := e
      cases av with
      | prim s =>
          obtain ⟨ihp, ihA, ihm⟩ := ih h
          refine ⟨ihp, ihA, ?_⟩
          intro k hr hmem
          have hmem2 : (k, ArgVal.hdrRef hr) ∈
              (k0, ArgVal.prim s) :: (copyArgEntries h rest).2 := hmem
          rcases List.mem_cons.mp hmem2 with heq | htl
          · injection heq with h1 h2
            exact ArgVal.noConfusion h2
          · exact ihm k hr htl
      | hdrRef r =>
          obtain ⟨ihp, ihA, ihm⟩ := ih (allocHdr h (getHdrs h r)).1
          have hap : Preserves h (allocHdr h (getHdrs h r)).1 :=
            allocHdrPreservesFrom _ (preservesRefl h)
          refine ⟨preservesTrans hap ihp, ?_, ?_⟩
          · show (copyArgEntries (allocHdr h (getHdrs h r)).1 rest).1.nextA = h.nextA
            rw [ihA]
            rfl
          · intro k hr hmem
            have hmem2 : (k, ArgVal.hdrRef hr) ∈
                (k0, ArgVal.hdrRef (allocHdr h (getHdrs h r)).2) ::
                (copyArgEntries (allocHdr h (getHdrs h r)).1 rest).2 := hmem
            rcases List.mem_cons.mp hmem2 with heq | htl
            · injection heq with h1 h2
              injection h2 with h3
              rw [h3]
              exact Nat.le_of_eq rfl
            · exact le_trans (Nat.le_succ _) (ihm k hr htl)

theorem lookupRefPrependEq {α : Type} (l : List (Nat × α)) (n : Nat) (d : α) :
    lookupRef ((n, d) :: l) n = some d := by
  simp [lookupRef]

theorem deepcopyArgsSpec (h : Heap) (r : Nat) :
    Preserves h (deepcopyArgs h r).1 ∧
    (deepcopyArgs h r).2 = h.nextA ∧
    getArgs (deepcopyArgs h r).1 (deepcopyArgs h r).2 =
      (copyArgEntries h (getArgs h r)).2 ∧
    (∀ k hr, (k, ArgVal.hdrRef hr) ∈ (copyArgEntries h (getArgs h r)).2 →
      h.nextH ≤ hr) := by
  obtain ⟨cp, cA, cm⟩ := copyArgEntriesSpec (getArgs h r) h
  refine ⟨preservesTrans cp (allocArgsPreservesFrom _ (preservesRefl _)), cA, ?_, cm⟩
  show (lookupRef (deepcopyArgs h r).1.args (deepcopyArgs h r).2).getD [] =
    (copyArgEntries h (getArgs h r)).2
  rw [show (deepcopyArgs h r).1.args =
    ((copyArgEntries h (getArgs h r)).1.nextA, (copyArgEntries h (getArgs h r)).2) ::
    (copyArgEntries h (getArgs h r)).1.args from rfl]
  rw [show (deepcopyArgs h r).2 = (copyArgEntries h (getArgs h r)).1.nextA from rfl]
  rw [lookupRefPrependEq]
  rfl

theorem assocLookupMem {α : Type} {k : String} {v : α} :
    ∀ {kvs : List (String × α)}, assocLookup kvs k = some v → (k, v) ∈ kvs := by
  intro kvs
  induction kvs with
  | nil => intro h; exact Option.noConfusion h
  | cons e rest ih =>
      intro h
      obtain ⟨k0, v0⟩ := e
      by_cases he : k0 = k
      · subst he
        simp only [assocLookup, if_pos rfl] at h
        cases h
        exact List.mem_cons_self _ _
      · simp only [assocLookup, if_neg he] at h
        exact List.mem_cons_of_mem _ (ih h)

theorem assocSetVHdrRefs {k0 : String} {s : String} :
    ∀ (kvs : List (String × ArgVal)) (k : String) (hr : Nat),
      (k, ArgVal.hdrRef hr) ∈ assocSetV kvs k0 (ArgVal.prim s) →
      (k, ArgVal.hdrRef hr) ∈ kvs := by
  intro kvs k hr hmem
  unfold assocSetV at hmem
  by_cases hc : (assocLookup kvs k0).isSome
  · rw [if_pos hc] at hmem
    obtain ⟨kv, hkv, himg⟩ := List.mem_map.mp hmem
    by_cases hk : kv.1 = k0
    · rw [if_pos hk] at himg
      injection himg with h1 h2
      exact ArgVal.noConfusion h2
    · rw [if_neg hk] at himg
      rw [himg] at hkv
      exact hkv
  · rw [if_neg hc] at hmem
    rcases List.mem_append.mp hmem with hin | hin
    · exact hin
    · simp at hin

theorem assocUpdatePrimHdrRefs :
    ∀ (new : List (String × String)) (base : List (String × ArgVal))
      (k : String) (hr : Nat),
      (k, ArgVal.hdrRef hr) ∈
        assocUpdateV base (new.map (fun kv => (kv.1, ArgVal.prim kv.2))) →
      (k, ArgVal.hdrRef hr) ∈ base := by
  intro new
  induction new with
  | nil => intro base k hr hmem; exact hmem
  | cons e rest ih =>
      intro base k hr hmem
      obtain ⟨k0, s0⟩ := e
      simp only [List.map_cons] at hmem
      have := ih (assocSetV base k0 (ArgVal.prim s0)) k hr hmem
      exact assocSetVHdrRefs base k hr this

theorem lookupRefMem {α : Type} {r : Nat} {d : α} :
    ∀ {l : List (Nat × α)}, lookupRef l r = some d → (r, d) ∈ l := by
  intro l
  induction l with
  | nil => intro h; exact Option.noConfusion h
  | cons e rest ih =>
      intro h
      obtain ⟨n, d0⟩ := e
      by_cases hn : n = r
      · subst hn
        simp only [lookupRef, if_pos rfl] at h
        cases h
        exact List.mem_cons_self _ _
      · simp only [lookupRef, if_neg hn] at h
        exact List.mem_cons_of_mem _ (ih h)

theorem heapWFBound {h : Heap} (hwf : heapWF h = true) :
    ∀ rid d, (rid, d) ∈ h.args → ∀ k hr, (k, ArgVal.hdrRef hr) ∈ d →
      hr < h.nextH := by
  intro rid d hmem k hr hkv
  unfold heapWF at hwf
  rw [Bool.and_eq_true] at hwf
  obtain ⟨h1, _⟩ := hwf
  rw [List.all_eq_true] at h1
  have h2 := h1 (rid, d) hmem
  rw [Bool.and_eq_true] at h2
  obtain ⟨_, h3⟩ := h2
  rw [List.all_eq_true] at h3
  have h4 := h3 (k, ArgVal.hdrRef hr) hkv
  simpa using h4

theorem resolvePreserved {h0 h2 : Heap} (r : Nat) (hp : Preserves h0 h2)
    (hr : r < h0.nextA) (hwf : heapWF h0 = true) :
    resolveArgs h2 r = resolveArgs h0 r := by
  unfold resolveArgs
  rw [hp.2.2.1 r hr]
  apply List.map_congr_left
  intro kv hkv
  obtain ⟨k, av⟩ := kv
  cases av with
  | prim s => rfl
  | hdrRef hr0 =>
      have hb : hr0 < h0.nextH := by
        cases hl : lookupRef h0.args r with
        | none =>
            rw [show getArgs h0 r = [] from by simp [getArgs, hl]] at hkv
            exact absurd hkv (List.not_mem_nil _)
        | some d =>
            have hd : getArgs h0 r = d := by simp [getArgs, hl]
            rw [hd] at hkv
            exact heapWFBound hwf r d (lookupRefMem hl) k hr0 hkv
      simp only []
      rw [hp.2.2.2 hr0 hb]

theorem deepcopyArgsLookup (h : Heap) (r : Nat) :
    lookupRef (deepcopyArgs h r).1.args (deepcopyArgs h r).2 =
      some (copyArgEntries h (getArgs h r)).2 := by
  rw [show (deepcopyArgs h r).1.args =
    ((copyArgEntries h (getArgs h r)).1.nextA, (copyArgEntries h (getArgs h r)).2) ::
    (copyArgEntries h (getArgs h r)).1.args from rfl]
  rw [show (deepcopyArgs h r).2 = (copyArgEntries h (getArgs h r)).1.nextA from rfl]
  rw [lookupRefPrependEq]

theorem getArgsSetArgsAtSelf (h : Heap) (r : Nat) (d : List (String × ArgVal))
    (hpres : (lookupRef h.args r).isSome = true) :
    getArgs (setArgsAt h r d) r = d := by
  unfold getArgs setArgsAt
  cases hl : lookupRef h.args r with
  | none => rw [hl] at hpres; exact Bool.noConfusion hpres
  | some d0 =>
      have : ∀ (l : List (Nat × List (String × ArgVal))),
          lookupRef l r = some d0 →
          lookupRef (l.map (fun e => if e.1 = r then (e.1, d) else e)) r = some d := by
        intro l
        induction l with
        | nil => intro hc; exact Option.noConfusion hc
        | cons e t ih =>
            intro hc
            obtain ⟨n, d1⟩ := e
            by_cases hn : n = r
            · subst hn
              show lookupRef ((if n = n then (n, d) else (n, d1)) :: _) n = some d
              rw [if_pos rfl]
              exact lookupRefPrependEq _ _ _
            · simp only [lookupRef, if_neg hn] at hc
              show lookupRef ((if n = r then (n, d) else (n, d1)) :: _) r = some d
              rw [if_neg hn]
              rw [lookupRefPrependNe _ _ _ _ hn]
              exact ih hc
      rw [this h.args hl]
      rfl

theorem setdefaultHeadersSpec {h0 : Heap} (h : Heap) (r : Nat)
    (hp : Preserves h0 h) (hA : h0.nextA ≤ r)
    (hmemRef : ∀ k hr, (k, ArgVal.hdrRef hr) ∈ getArgs h r → h0.nextH ≤ hr) :
    ∀ h2 hr, setdefaultHeaders h r = .ok (h2, hr) →
      Preserves h0 h2 ∧ h0.nextH ≤ hr := by
  intro h2 hr hsd
  unfold setdefaultHeaders at hsd
  cases hl : assocLookup (getArgs h r) "headers" with
  | none =>
      rw [hl] at hsd
      have hpair := Except.ok.inj hsd
      have hh2 : setArgsAt (allocHdr h []).1 r
          (assocSetV (getArgs (allocHdr h []).1 r) "headers"
            (.hdrRef (allocHdr h []).2)) = h2 := congrArg Prod.fst hpair
      have hhr : (allocHdr h []).2 = hr := congrArg Prod.snd hpair
      constructor
      · rw [← hh2]
        exact setArgsAtPreservesFrom _ hA (allocHdrPreservesFrom _ hp)
      · rw [← hhr]
        exact hp.2.1
  | some av =>
      cases av with
      | prim s =>
          rw [hl] at hsd
          exact Except.noConfusion hsd
      | hdrRef hr0 =>
          rw [hl] at hsd
          have hpair := Except.ok.inj hsd
          have hh2 : h = h2 := congrArg Prod.fst hpair
          have hhr : hr0 = hr := congrArg Prod.snd hpair
          refine ⟨hh2 ▸ hp, ?_⟩
          rw [← hhr]
          exact hmemRef "headers" hr0 (assocLookupMem hl)

/-- C10: every HTTP-issuing call leaves the client's configured state
unchanged.  The `_http_*` methods merge their per-request headers and
overrides into a deep copy of `request_args`, so the dict reachable from
the client's `request_args` reference (including its nested `headers`
dict) resolves to the same value before and after each call; `db_name` and
`couch_url` are plain fields the methods never assign, read-only in this
model. -/
theorem c10_request_args_preserved (h : Heap) (c : ClientH)
    (headers : List (String × Option String)) (kwargs : List (String × String))
    (bodyTruthy : Bool)
    (hwf : heapWF h = true) (hrc : c.argsRef < h.nextA) :
    resolveArgs (http_get_heap h c headers).1 c.argsRef =
      resolveArgs h c.argsRef ∧
    resolveArgs (http_post_heap h c kwargs).1 c.argsRef =
      resolveArgs h c.argsRef ∧
    resolveArgs (http_put_heap h c bodyTruthy headers).1 c.argsRef =
      resolveArgs h c.argsRef ∧
    resolveArgs (http_delete_heap h c).1 c.argsRef = resolveArgs h c.argsRef ∧
    resolveArgs (http_head_heap h c).1 c.argsRef = resolveArgs h c.argsRef := by
  obtain ⟨dp, dref, dargs, dmem⟩ := deepcopyArgsSpec h c.argsRef
  have hAle : h.nextA ≤ (deepcopyArgs h c.argsRef).2 := le_of_eq dref.symm
  have hcopymem : ∀ k hr, (k, ArgVal.hdrRef hr) ∈
      getArgs (deepcopyArgs h c.argsRef).1 (deepcopyArgs h c.argsRef).2 →
      h.nextH ≤ hr := by
    intro k hr hmem
    rw [dargs] at hmem
    exact dmem k hr hmem
  refine ⟨?_, ?_, ?_, ?_, ?_⟩
  · unfold http_get_heap
    cases hcl : c.closed with
    | true => rw [if_pos rfl]
    | false =>
        rw [if_neg Bool.false_ne_true]
        cases hsd : setdefaultHeaders (deepcopyArgs h c.argsRef).1
            (deepcopyArgs h c.argsRef).2 with
        | error e =>
            simp only [hsd]
            exact resolvePreserved c.argsRef dp hrc hwf
        | ok pr =>
            obtain ⟨h2, hr⟩ := pr
            obtain ⟨p2, hb⟩ := setdefaultHeadersSpec _ _ dp hAle hcopymem h2 hr hsd
            simp only [hsd]
            have p3 : Preserves h (updateHdrsAt h2 hr headers) :=
              updateHdrsAtPreservesFrom _ hb p2
            by_cases hacc : (assocLookup (getHdrs (updateHdrsAt h2 hr headers) hr)
                "Accept").isSome = true
            · rw [if_pos hacc]
              exact resolvePreserved c.argsRef p3 hrc hwf
            · rw [if_neg hacc]
              exact resolvePreserved c.argsRef
                (updateHdrsAtPreservesFrom _ hb p3) hrc hwf
  · unfold http_post_heap
    cases hcl : c.closed with
    | true => rw [if_pos rfl]
    | false =>
        rw [if_neg Bool.false_ne_true]
        have pU : Preserves h (updateArgsAt (deepcopyArgs h c.argsRef).1
            (deepcopyArgs h c.argsRef).2
            (kwargs.map (fun kv => (kv.1, .prim kv.2)))) :=
          updateArgsAtPreservesFrom _ hAle dp
        have hargs2 : getArgs (updateArgsAt (deepcopyArgs h c.argsRef).1
            (deepcopyArgs h c.argsRef).2
            (kwargs.map (fun kv => (kv.1, .prim kv.2))))
            (deepcopyArgs h c.argsRef).2 =
            assocUpdateV (getArgs (deepcopyArgs h c.argsRef).1
              (deepcopyArgs h c.argsRef).2)
              (kwargs.map (fun kv => (kv.1, .prim kv.2))) := by
          apply getArgsSetArgsAtSelf
          rw [deepcopyArgsLookup]
          rfl
        have hmem2 : ∀ k hr, (k, ArgVal.hdrRef hr) ∈
            getArgs (updateArgsAt (deepcopyArgs h c.argsRef).1
              (deepcopyArgs h c.argsRef).2
              (kwargs.map (fun kv => (kv.1, .prim kv.2))))
              (deepcopyArgs h c.argsRef).2 →
            h.nextH ≤ hr := by
          intro k hr hmem
          rw [hargs2] at hmem
          exact hcopymem k hr (assocUpdatePrimHdrRefs kwargs _ k hr hmem)
        cases hsd : setdefaultHeaders (updateArgsAt (deepcopyArgs h c.argsRef).1
            (deepcopyArgs h c.argsRef).2
            (kwargs.map (fun kv => (kv.1, .prim kv.2))))
            (deepcopyArgs h c.argsRef).2 with
        | error e =>
            simp only [hsd]
            exact resolvePreserved c.argsRef pU hrc hwf
        | ok pr =>
            obtain ⟨h2, hr⟩ := pr
            obtain ⟨p2, hb⟩ := setdefaultHeadersSpec _ _ pU hAle hmem2 h2 hr hsd
            simp only [hsd]
            exact resolvePreserved c.argsRef
              (updateHdrsAtPreservesFrom _ hb p2) hrc hwf
  · unfold http_put_heap
    cases hcl : c.closed with
    | true => rw [if_pos rfl]
    | false =>
        rw [if_neg Bool.false_ne_true]
        cases hsd : setdefaultHeaders (deepcopyArgs h c.argsRef).1
            (deepcopyArgs h c.argsRef).2 with
        | error e =>
            simp only [hsd]
            exact resolvePreserved c.argsRef dp hrc hwf
        | ok pr =>
            obtain ⟨h2, hr⟩ := pr
            obtain ⟨p2, hb⟩ := setdefaultHeadersSpec _ _ dp hAle hcopymem h2 hr hsd
            simp only [hsd]
            have p3 : Preserves h (updateHdrsAt h2 hr headers) :=
              updateHdrsAtPreservesFrom _ hb p2
            by_cases hct : bodyTruthy = true ∧
                ¬ (assocLookup (getHdrs (updateHdrsAt h2 hr headers) hr)
                  "Content-Type").isSome = true
            · rw [if_pos hct]
              have p4 := updateHdrsAtPreservesFrom
                [("Content-Type", some "application/json")] hb p3
              by_cases hacc : (assocLookup (getHdrs (updateHdrsAt
                  (updateHdrsAt h2 hr headers) hr
                  [("Content-Type", some "application/json")]) hr)
                  "Accept").isSome = true
              · rw [if_pos hacc]
                exact resolvePreserved c.argsRef p4 hrc hwf
              · rw [if_neg hacc]
                exact resolvePreserved c.argsRef
                  (updateHdrsAtPreservesFrom _ hb p4) hrc hwf
            · rw [if_neg hct]
              by_cases hacc : (assocLookup (getHdrs (updateHdrsAt h2 hr headers) hr)
                  "Accept").isSome = true
              · rw [if_pos hacc]
                exact resolvePreserved c.argsRef p3 hrc hwf
              · rw [if_neg hacc]
                exact resolvePreserved c.argsRef
                  (updateHdrsAtPreservesFrom _ hb p3) hrc hwf
  · unfold http_delete_heap
    cases hcl : c.closed with
    | true => rw [if_pos rfl]
    | false =>
        rw [if_neg Bool.false_ne_true]
        cases hsd : setdefaultHeaders (deepcopyArgs h c.argsRef).1
            (deepcopyArgs h c.argsRef).2 with
        | error e =>
            simp only [hsd]
            exact resolvePreserved c.argsRef dp hrc hwf
        | ok pr =>
            obtain ⟨h2, hr⟩ := pr
            obtain ⟨p2, hb⟩ := setdefaultHeadersSpec _ _ dp hAle hcopymem h2 hr hsd
            simp only [hsd]
            exact resolvePreserved c.argsRef
              (updateHdrsAtPreservesFrom _ hb p2) hrc hwf
  · unfold http_head_heap
    cases hcl : c.closed with
    | true => rw [if_pos rfl]
    | false =>
        rw [if_neg Bool.false_ne_true]
        exact resolvePreserved c.argsRef dp hrc hwf

/-- The concrete heap used in the C10 witness: one `request_args` dict
holding a primitive option and a `headers` dict. -/
def h0Demo : Heap :=
  { args := [(0, [("use_gzip", .prim "True"), ("headers", .hdrRef 0)])],
    hdrs := [(0, [("X-Custom", some "y")])],
    nextA := 1, nextH := 1 }

/-- The client of the C10 witness. -/
def c0Demo : ClientH :=
  { argsRef := 0, db_name := "testdb",
    couch_url := "http://127.0.0.1:5984/", closed := false }

/-- Witness for C10 at a concrete configured client. -/
theorem c10_request_args_preserved_witness :
    heapWF h0Demo = true ∧ c0Demo.argsRef < h0Demo.nextA ∧
    resolveArgs (http_get_heap h0Demo c0Demo [("Accept", some "text/plain")]).1
      c0Demo.argsRef = resolveArgs h0Demo c0Demo.argsRef := by
  refine ⟨by decide, by decide, ?_⟩
  exact (c10_request_args_preserved h0Demo c0Demo [("Accept", some "text/plain")]
    [("request_timeout", "120.0")] true (by decide) (by decide)).1

end Couch
